import Mathlib

/- Verification development for the caption parsing, normalization and
channel-routing engine of `new_contribute.py`.

Strings are modelled as lists of characters (`Str`).  Each Python regular
expression used by the program is modelled by an explicit, executable
scanning function that implements the search/findall semantics of the
pattern (leftmost match, greedy `\s*`, lazy `(.+?)`, the `(?=...)`
lookaheads, and Python's rule that `$` also matches just before a final
newline).  Whitespace is modelled by the ASCII whitespace characters;
the Python original additionally treats some rare Unicode spaces as
whitespace, which none of the inputs considered here contain. -/

deriving instance DecidableEq for Except

namespace NewContribute

abbrev Str := List Char

def str (s : String) : Str := s.data

/-- Python whitespace (`\s`, `str.strip`), restricted to ASCII. -/
def isWS (c : Char) : Bool :=
  c = ' ' || c = '\t' || c = '\n' || c = '\r' || c = '\x0b' || c = '\x0c'

def nonWS (c : Char) : Bool := !isWS c

/-- `isPre p l` holds when `p` is a prefix of `l` (Python `startswith`). -/
def isPre : Str → Str → Bool
  | [], _ => true
  | _ :: _, [] => false
  | a :: as, b :: bs => if a = b then isPre as bs else false

/-- `hasSub pat l` holds when `pat` occurs as a contiguous substring of `l`
(Python `pat in l`). -/
def hasSub (pat : Str) : Str → Bool
  | [] => isPre pat []
  | c :: cs => isPre pat (c :: cs) || hasSub pat cs

/-- Python `str.strip()`. -/
def pyStrip (s : Str) : Str := ((s.dropWhile isWS).reverse.dropWhile isWS).reverse

/-- Python `text.split('\n')`. -/
def splitNL : Str → List Str
  | [] => [[]]
  | c :: cs =>
    if c = '\n' then [] :: splitNL cs
    else
      match splitNL cs with
      | [] => [[c]]
      | h :: t => (c :: h) :: t

/-- Python `'\n'.join(lines)`. -/
def joinNL : List Str → Str
  | [] => []
  | l :: ls =>
    match ls with
    | [] => l
    | _ :: _ => l ++ '\n' :: joinNL ls

/-- Order-preserving deduplication with an accumulator of already seen
elements (the loop `if link not in links: links.append(link)` and
`dict.fromkeys`). -/
def dedupAux : List Str → List Str → List Str
  | [], _ => []
  | x :: xs, seen => if x ∈ seen then dedupAux xs seen else x :: dedupAux xs (x :: seen)

def dedupKeepFirst (l : List Str) : List Str := dedupAux l []

/- ## Generic regex-search scaffolding -/

/-- Leftmost-match search: try a match at every position, left to right
(`re.search`). -/
def scanOpt {α : Type} (f : Str → Option α) : Str → Option α
  | [] => f []
  | c :: cs =>
    match f (c :: cs) with
    | some r => some r
    | none => scanOpt f cs

/-- Non-overlapping left-to-right collection of matches (`re.findall`).
A matcher returns the captured group together with the remainder of the
input after the full match; every matcher used here consumes at least one
character, so the fuel `l.length` provided by `findall` is sufficient. -/
def scanall (m : Str → Option (Str × Str)) : Nat → Str → List Str
  | 0, _ => []
  | _ + 1, [] => []
  | fuel + 1, c :: cs =>
    match m (c :: cs) with
    | some (cap, rest) => cap :: scanall m fuel rest
    | none => scanall m fuel cs

def findall (m : Str → Option (Str × Str)) (l : Str) : List Str := scanall m l.length l

/-- The tail `\s*(.+?)(?=\n|$)` of the single-line field patterns: greedy
whitespace skip, then a lazy capture of at least one non-newline character,
stopped by a newline or the end of the input.  When everything after the
label is whitespace, backtracking still yields a match (capturing the last
character not equal to a newline) exactly when one exists. -/
def tailLine (r : Str) : Option Str :=
  match r.dropWhile isWS with
  | c :: cs => some ((c :: cs).takeWhile (fun x => x != '\n'))
  | [] =>
    match r.reverse.dropWhile (fun x => x == '\n') with
    | c :: _ => some [c]
    | [] => none

/-- The lookahead `(?=\n(?:lab₁|lab₂|...)|$)` used by the description
patterns.  Python's `$` (without `re.MULTILINE`) also matches just before a
final newline. -/
def stopAt (stops : List Str) (cs : Str) : Bool :=
  match cs with
  | [] => true
  | ['\n'] => true
  | '\n' :: r => stops.any (fun p => isPre p r)
  | _ => false

/-- Lazy capture of at least one character (with `re.DOTALL`, so newlines
are captured as well), stopped as soon as the `stopAt` lookahead holds. -/
def takeUntil (stops : List Str) : Str → Str
  | [] => []
  | c :: cs => c :: (if stopAt stops cs then [] else takeUntil stops cs)

/-- The tail `\s*(.+?)(?=\n(?:stops)|$)` with `re.DOTALL` of the
description patterns. -/
def tailDotall (stops : List Str) (r : Str) : Option Str :=
  match r.dropWhile isWS with
  | c :: cs => some (takeUntil stops (c :: cs))
  | [] =>
    match r.reverse with
    | c :: _ => some [c]
    | [] => none

/-- A labelled-field matcher at one fixed position: one of the `labels`,
then a colon accepted by `colon`, then the tail pattern. -/
def tryField (labels : List Str) (colon : Char → Bool) (tailF : Str → Option Str)
    (l : Str) : Option Str :=
  labels.findSome? (fun lab =>
    if isPre lab l then
      match l.drop lab.length with
      | c :: r => if colon c then tailF r else none
      | [] => none
    else none)

/-- `re.search` for a labelled field pattern `(?:lab₁|lab₂)[：:]...tail`. -/
def searchField (labels : List Str) (colon : Char → Bool) (tailF : Str → Option Str)
    (s : Str) : Option Str :=
  scanOpt (tryField labels colon tailF) s

/-- Matcher at one position for the icon variants
`📁\s*大小[：:]...` and `🏷\s*标签[：:]...`. -/
def tryIcon (icon : Char) (lab : Str) (colon : Char → Bool) (tailF : Str → Option Str)
    (l : Str) : Option Str :=
  match l with
  | c :: r =>
    if c = icon then
      let r2 := r.dropWhile isWS
      if isPre lab r2 then
        match r2.drop lab.length with
        | c2 :: r3 => if colon c2 then tailF r3 else none
        | [] => none
      else none
    else none
  | [] => none

def isColonBoth (c : Char) : Bool := c = '：' || c = ':'

def isColonFull (c : Char) : Bool := c = '：'

/- ## URL matchers -/

/-- `https?://` (at the current position). -/
def matchScheme (l : Str) : Option (Str × Str) :=
  if isPre (str "https://") l then some (str "https://", l.drop 8)
  else if isPre (str "http://") l then some (str "http://", l.drop 7)
  else none

/-- `https?://[^\s]+`: scheme followed by a maximal non-empty run of
non-whitespace characters.  Returns the captured URL and the remainder. -/
def matchAnyURL (l : Str) : Option (Str × Str) :=
  match matchScheme l with
  | some (sch, r) =>
    let run := r.takeWhile nonWS
    if run = [] then none else some (sch ++ run, r.dropWhile nonWS)
  | none => none

/-- The four provider path markers, in the priority order of the source. -/
def provDoms : List Str :=
  [str "pan.quark.cn/s/", str "pan.baidu.com/s/", str "drive.uc.cn/", str "pan.xunlei.com/s/"]

/-- The shared provider URL pattern
`https?://(?:pan\.quark\.cn/s/[^\s\n]+|pan\.baidu\.com/s/[^\s\n]+(?:\?pwd=[^\s\n]+)?|drive\.uc\.cn/[^\s\n]+|pan\.xunlei\.com/s/[^\s\n]+(?:\?pwd=[^\s\n]+)?)`.
The optional `?pwd=` groups are absorbed by the greedy `[^\s\n]+` and add
nothing to the matched language. -/
def matchProvURL (l : Str) : Option (Str × Str) :=
  match matchScheme l with
  | some (sch, r) =>
    provDoms.findSome? (fun dom =>
      if isPre dom r then
        let r2 := r.drop dom.length
        let run := r2.takeWhile nonWS
        if run = [] then none else some (sch ++ dom ++ run, r2.dropWhile nonWS)
      else none)
  | none => none

/-- The provider names `夸克|百度|UC|迅雷`. -/
def provNames : List Str := [str "夸克", str "百度", str "UC", str "迅雷"]

/-- One-position matcher for `链接[：:]\s*(https?://[^\s]+)` (`colon`
selects which colons the concrete pattern admits). -/
def tryLabeledURL (colon : Char → Bool) (l : Str) : Option (Str × Str) :=
  if isPre (str "链接") l then
    match l.drop 2 with
    | c :: r => if colon c then matchAnyURL (r.dropWhile isWS) else none
    | [] => none
  else none

/-- One-position matcher for `(夸克|百度|UC|迅雷)[：:]\s*(https?://[^\s\n]+(?:\?pwd=[^\s\n]+)?)`,
capturing the URL group. -/
def tryPrefixedURL (l : Str) : Option (Str × Str) :=
  provNames.findSome? (fun p =>
    if isPre p l then
      match l.drop p.length with
      | c :: r => if isColonBoth c then matchAnyURL (r.dropWhile isWS) else none
      | [] => none
    else none)

/-- One-position matcher for the strict link pattern
`(?:(?:夸克|百度|UC|迅雷)[：:]\s*)?(provider URL)`: the optional provider-name
prefix is tried first, then the bare provider URL at the same position. -/
def tryStrictLink (l : Str) : Option (Str × Str) :=
  match provNames.findSome? (fun p =>
      if isPre p l then
        match l.drop p.length with
        | c :: r => if isColonBoth c then matchProvURL (r.dropWhile isWS) else none
        | [] => none
      else none) with
  | some res => some res
  | none => matchProvURL l

/- ## Fixed configuration of the bot -/

def CHANNEL_IDS : List String := ["@yunpanNB", "@ammmziyuan"]

inductive Tag where
  | quark
  | baidu
  | uc
  | xunlei
  | unknown
deriving DecidableEq

def SPECIFIC_CHANNELS : Tag → Option String
  | .quark => some "@yunpanquark"
  | .baidu => some "@yunpanbaidu"
  | .uc => some "@pxyunpanuc"
  | .xunlei => some "@pxyunpanxunlei"
  | .unknown => none

/- ## PostManager -/

structure PostData where
  name : Str
  description : Str
  links : List Str
  size : Str
  tags : Str
deriving DecidableEq

/-- `re.search(r"：\s*(https?://.+)", link)` used by `format_links` on a
provider-name-prefixed line: first full-width colon followed (after
whitespace) by a URL; `.+` greedily captures to the end of the line. -/
def tryColonURL (l : Str) : Option Str :=
  match l with
  | c :: t =>
    if c = '：' then
      match matchScheme (t.dropWhile isWS) with
      | some (sch, r1) =>
        let run := r1.takeWhile (fun x => x != '\n')
        if run = [] then none else some (sch ++ run)
      | none => none
    else none
  | [] => none

def searchColonURL (l : Str) : Option Str := scanOpt tryColonURL l

/-- `re.match(r"^(夸克|百度|UC|迅雷)：", link)` (anchored, full-width colon
only). -/
def provNameColon (l : Str) : Bool :=
  provNames.any (fun p => isPre (p ++ ['：']) l)

/-- One line of `PostManager.format_links`. -/
def fmtLink (link0 : Str) : Option Str :=
  let link := pyStrip link0
  if link = [] then none
  else if isPre (str "链接：") link then some link
  else if provNameColon link then
    match searchColonURL link with
    | some url => some (str "链接：" ++ url)
    | none => some (str "链接：" ++ link)
  else some (str "链接：" ++ link)

/-- `PostManager.format_links`. -/
def format_links (links_text : Str) : Str :=
  let fm := (splitNL links_text).filterMap fmtLink
  joinNL (if fm = [] then [str "链接：https://pan.quark.cn/s/3c07afa156f3"] else fm)

/-- The line loop of `PostManager.remove_duplicate_links`, with the set of
already seen URLs as accumulator. -/
def removeDupAux : List Str → List Str → List Str
  | [], _ => []
  | line :: rest, seen =>
    if isPre (str "链接：") line then
      let url := pyStrip (line.drop 3)
      if url ∈ seen then removeDupAux rest seen
      else line :: removeDupAux rest (url :: seen)
    else line :: removeDupAux rest seen

/-- `PostManager.remove_duplicate_links`. -/
def remove_duplicate_links (caption : Str) : Str :=
  joinNL (removeDupAux (splitNL caption) [])

/-- The per-URL classification chain of `PostManager.identify_link_types`. -/
def classify (url : Str) : Tag :=
  if hasSub (str "pan.quark.cn") url then .quark
  else if hasSub (str "pan.baidu.com") url then .baidu
  else if hasSub (str "drive.uc.cn") url then .uc
  else if hasSub (str "pan.xunlei.com") url then .xunlei
  else .unknown

/-- Stripping of an optional `链接：` label before classification. -/
def normalize_link (link : Str) : Str :=
  if isPre (str "链接：") link then pyStrip (link.drop 3) else pyStrip link

/-- `PostManager.identify_link_types` (a Python `set`, modelled as a
`Finset`; `unknown` is never added to the set). -/
def identify_link_types (links : List Str) : Finset Tag :=
  ((links.map (fun l => classify (normalize_link l))).filter (fun t => t ≠ Tag.unknown)).toFinset

/-- `PostManager.get_target_channels` (returns `list(set(...))`, modelled as
a `Finset`); when no link type is recognized it returns the broadcast
channels unchanged. -/
def get_target_channels (links : List Str) : Finset String :=
  let lt := identify_link_types links
  if lt = ∅ then CHANNEL_IDS.toFinset
  else CHANNEL_IDS.toFinset ∪ lt.biUnion (fun t => (SPECIFIC_CHANNELS t).toFinset)

/-- The per-line keep decision of
`PostManager.create_channel_specific_caption`. -/
def chanKeep (t : Tag) (line : Str) : Bool :=
  if isPre (str "链接：") line then
    let url := pyStrip (line.drop 3)
    match t with
    | .quark => hasSub (str "pan.quark.cn") url
    | .baidu => hasSub (str "pan.baidu.com") url
    | .uc => hasSub (str "drive.uc.cn") url
    | .xunlei => hasSub (str "pan.xunlei.com") url
    | .unknown => false
  else true

/-- `PostManager.create_channel_specific_caption`. -/
def create_channel_specific_caption (caption : Str) (t : Tag) : Str :=
  joinNL ((splitNL caption).filter (chanKeep t))

def ad_keywords : List Str :=
  [str "兼职", str "招聘", str "游戏代练", str "刷单", str "刷钻"]

def suspicious_patterns : List Str :=
  [str "taobao.com", str "tmall.com", str "jd.com", str "wechat", str "wx.qq.com", str "alipay.com"]

/-- The anchored prefixes accepted by
`re.match(r"https?://(pan\.quark\.cn|pan\.baidu\.com|drive\.uc\.cn|pan\.xunlei\.com)/", link)`. -/
def provider_anchors : List Str :=
  [str "https://pan.quark.cn/", str "http://pan.quark.cn/",
   str "https://pan.baidu.com/", str "http://pan.baidu.com/",
   str "https://drive.uc.cn/", str "http://drive.uc.cn/",
   str "https://pan.xunlei.com/", str "http://pan.xunlei.com/"]

def provider_anchored (url : Str) : Bool := provider_anchors.any (fun p => isPre p url)

/-- `PostManager.detect_ad_content`. -/
def detect_ad_content (caption : Str) : Bool :=
  (match searchField [str "描述"] isColonFull tailLine caption with
   | some d => ad_keywords.any (fun kw => hasSub kw d)
   | none => false)
  || (findall (tryLabeledURL isColonFull) caption).any (fun l =>
      !provider_anchored l && suspicious_patterns.any (fun p => hasSub p l))

def strictStops : List Str :=
  [str "链接", str "夸克", str "百度", str "UC", str "迅雷", str "📁", str "🏷"]

/-- `PostManager.strict_mode_parse`. -/
def strict_mode_parse (caption : Str) : PostData :=
  let name :=
    match searchField [str "名称", str "资源标题"] isColonBoth tailLine caption with
    | some s => pyStrip s
    | none => []
  let desc :=
    match searchField [str "描述"] isColonBoth (tailDotall strictStops) caption with
    | some s => pyStrip s
    | none => []
  let links1 := dedupKeepFirst (findall tryStrictLink caption)
  let links := if links1 = [] then dedupKeepFirst (findall matchProvURL caption) else links1
  let size :=
    match searchField [str "大小"] isColonBoth tailLine caption with
    | some s => pyStrip s
    | none =>
      match scanOpt (tryIcon '📁' (str "大小") isColonBoth tailLine) caption with
      | some s => pyStrip s
      | none => []
  let tags :=
    match searchField [str "标签"] isColonBoth tailLine caption with
    | some s => pyStrip s
    | none =>
      match scanOpt (tryIcon '🏷' (str "标签") isColonBoth tailLine) caption with
      | some s => pyStrip s
      | none => []
  ⟨name, desc, links, size, tags⟩

def copyright_keywords : List Str :=
  [str "⚠️ 版权：", str "版权反馈/DMCA", str "📢 频道 👥群组🔍投稿/搜索", str "版权",
   str "版权反馈", str "DMCA", str "频道", str "群组", str "投稿", str "搜索"]

/-- The keyword loop of `PostManager.create_post_caption`: the first banned
keyword occurring in the name or the description, if any. -/
def firstBanned (name desc : Str) : Option Str :=
  copyright_keywords.find? (fun kw => hasSub kw name || hasSub kw desc)

/-- `PostManager.create_post_caption`; the `ValueError` raised on a banned
keyword is modelled by the `Except` error carrying the exception text. -/
def create_post_caption (pd : PostData) : Except Str Str :=
  match firstBanned pd.name pd.description with
  | some kw => .error (str "内容包含禁止关键词: " ++ kw)
  | none =>
    let links_fmt := format_links (joinNL pd.links)
    let tags_pref := if pd.tags = [] then str "#鹏摇星海" else pd.tags ++ str " #鹏摇星海"
    .ok (remove_duplicate_links
      (str "名称：" ++ pd.name ++ str "\n\n描述：" ++ pd.description ++ str "\n\n"
        ++ links_fmt ++ str "\n\n📁 大小：" ++ pd.size ++ str "\n🏷 标签：" ++ tags_pref))

/- ## auto_fix_message -/

/-- The three link-pattern passes of `auto_fix_message`, unioned in order
with first-seen duplicates removed. -/
def auto_fix_links (caption : Str) : List Str :=
  dedupKeepFirst (findall (tryLabeledURL isColonBoth) caption
    ++ findall tryPrefixedURL caption ++ findall matchProvURL caption)

/-- `auto_fix_message`. -/
def auto_fix_message (caption : Str) : Str :=
  let name :=
    match searchField [str "名称"] isColonBoth tailLine caption with
    | some s => pyStrip s
    | none => str "未提供"
  let desc :=
    match searchField [str "描述", str "简介"] isColonBoth (tailDotall strictStops) caption with
    | some s => pyStrip s
    | none => str "未提供"
  let links := auto_fix_links caption
  let fmt :=
    if links = [] then [str "链接：https://pan.quark.cn/s/3c07afa156f3"]
    else links.map (fun l => str "链接：" ++ l)
  let size :=
    match searchField [str "大小"] isColonBoth tailLine caption with
    | some s => pyStrip s
    | none => str "NG"
  let tags :=
    match searchField [str "标签"] isColonBoth tailLine caption with
    | some s => pyStrip s
    | none => str "#网盘资源"
  str "名称：" ++ name ++ str "\n\n描述：" ++ desc ++ str "\n\n" ++ joinNL fmt
    ++ str "\n\n📁 大小：" ++ size ++ str "\n🏷 标签：" ++ tags

/- ## The structural validation regex of handle_message -/

/-- One repetition `链接：\s*https?:\/\/[^\s]+\n` of the structural
pattern. -/
def parseUnit (l : Str) : Option Str :=
  if isPre (str "链接：") l then
    match matchAnyURL ((l.drop 3).dropWhile isWS) with
    | some (_, rest) =>
      match rest with
      | '\n' :: rest2 => some rest2
      | _ => none
    | none => none
  else none

/-- Greedy repetition of `parseUnit` (the regex `+`); the boundary between
a further repetition (starting with `链`) and the exit literal `\n` is
unambiguous, so the repetition is deterministic. -/
def unitsStar : Nat → Str → Str
  | 0, l => l
  | f + 1, l =>
    match parseUnit l with
    | none => l
    | some r => unitsStar f r

/-- The suffix `\n\n(链接：\s*https?:\/\/[^\s]+\n)+\n📁 大小：\s*.*\n🏷 标签：\s*.*`
of the structural pattern, matched at one fixed position (`.*` runs under
`re.DOTALL`, so it imposes no constraint beyond the remaining literals). -/
def blockTail (l : Str) : Bool :=
  match l with
  | '\n' :: '\n' :: r =>
    (match parseUnit r with
     | none => false
     | some r1 =>
       let r2 := unitsStar r1.length r1
       if isPre (str "\n📁 大小：") r2 then
         hasSub (str "\n🏷 标签：") (r2.drop (str "\n📁 大小：").length)
       else false)
  | _ => false

def anySuffixB (f : Str → Bool) : Str → Bool
  | [] => f []
  | c :: cs => f (c :: cs) || anySuffixB f cs

/-- Leftmost occurrence of the literal `pat`; returns the remainder after
it. -/
def searchAfterSub (pat : Str) : Str → Option Str :=
  scanOpt (fun s => if isPre pat s then some (s.drop pat.length) else none)

/-- `re.search(pattern, caption, re.DOTALL)` for the structural template
`名称：\s*.*\n\n描述：\s*.*\n\n(链接：\s*https?:\/\/[^\s]+\n)+\n📁 大小：\s*.*\n🏷 标签：\s*.*`
of `handle_message`: under `re.DOTALL` the `\s*.*` pieces match arbitrary
text, so a match exists exactly when the literal `名称：`, a later
`\n\n描述：`, and a later position satisfying `blockTail` occur in order. -/
def structCheck (caption : Str) : Bool :=
  match searchAfterSub (str "名称：") caption with
  | none => false
  | some r1 =>
    match searchAfterSub (str "\n\n描述：") r1 with
    | none => false
    | some r2 => anySuffixB blockTail r2

/- ## Workflow decisions -/

inductive Decision where
  | rejectedFormat
  | rejectedAd
  | rejectedPolicy (msg : Str)
  | accepted (caption : Str)
deriving DecidableEq

/-- The acceptance decision of `handle_message` for a one-shot submission:
which caption (if any) is appended to the user's posts, and which rejection
is reported otherwise. -/
def handle_message (hasPhoto : Bool) (captionOpt : Option Str) : Decision :=
  match captionOpt, hasPhoto with
  | none, _ => .rejectedFormat
  | some _, false => .rejectedFormat
  | some caption, true =>
    let parsed := strict_mode_parse caption
    if parsed.name = [] ∨ parsed.description = [] then
      if detect_ad_content caption then .rejectedAd
      else if structCheck caption then .accepted caption
      else
        let fixed := auto_fix_message caption
        if detect_ad_content fixed then .rejectedAd
        else if structCheck fixed then .accepted fixed
        else .rejectedFormat
    else
      match create_post_caption parsed with
      | .ok std => .accepted std
      | .error e => .rejectedPolicy e

inductive RouteOutcome where
  | noLinks
  | noRecognizedProvider (unrecognized : List Str)
  | publish (linkTypes : Finset Tag)
deriving DecidableEq

/-- The link checks of `handle_confirm_callback` (after the advertising
check): no labelled links at all, no recognized provider among them, or
publication with the recognized link types. -/
def confirm_routing (links : List Str) : RouteOutcome :=
  if links = [] then .noLinks
  else if identify_link_types links = ∅ then
    .noRecognizedProvider (links.map normalize_link)
  else .publish (identify_link_types links)

/-- Link extraction of `handle_confirm_callback`:
`re.findall(r"链接：\s*(https?://[^\s\n]+)", processed_caption)` on the
deduplicated caption, then the link checks. -/
def confirm_check (caption : Str) : RouteOutcome :=
  confirm_routing (findall (tryLabeledURL isColonFull) (remove_duplicate_links caption))

/-- The fixed footer appended for the broadcast channels
(`base_message`). -/
def base_message (caption : Str) : Str :=
  caption ++ str "\n\n📢 频道：@yunpanNB\n👥 群组：@naclzy\n🔗 获取更多资源：https://docs.qq.com/aio/DYmZYVGpFVGxOS3NE\n🎉 来源：https://link3.cc/pyxh"

/-- The fixed footer appended for the provider-specific channels
(`specific_message`). -/
def specific_message (caption : Str) : Str :=
  caption ++ str "\n📢 频道：@yunpanNB\n👥 群组：@naclzy\n🔗 获取更多资源：https://docs.qq.com/aio/DYmZYVGpFVGxOS3NE\n🔗交流讨论：https://link3.cc/pyxh"

/-- The send plan of `handle_confirm_callback` for one post: broadcast
channels with `base_message`, then one dedicated channel per recognized
link type with the channel-specific caption (the Python `set` iteration
order is abstracted by the list `ts`). -/
def publish_messages (caption : Str) (ts : List Tag) : List (String × Str) :=
  CHANNEL_IDS.map (fun ch => (ch, base_message caption))
    ++ ts.filterMap (fun t => (SPECIFIC_CHANNELS t).map
        (fun ch => (ch, specific_message (create_channel_specific_caption caption t))))

/- ## Spec-side vocabulary used in theorem statements -/

/-- A whole, well-formed provider link: scheme, one of the four provider
path markers, and a non-empty whitespace-free remainder.  This is exactly
the shape matched by the shared provider URL pattern. -/
def goodLink (u : Str) : Prop :=
  ∃ sch dom t, (sch = str "https://" ∨ sch = str "http://") ∧ dom ∈ provDoms ∧
    t ≠ [] ∧ (∀ c ∈ t, isWS c = false) ∧ u = sch ++ dom ++ t

/-- A whole URL as matched by `https?://[^\s]+`: scheme and a non-empty
whitespace-free remainder. -/
def anyLinkShape (u : Str) : Prop :=
  ∃ sch t, (sch = str "https://" ∨ sch = str "http://") ∧
    t ≠ [] ∧ (∀ c ∈ t, isWS c = false) ∧ u = sch ++ t

/-- The canonical caption wire format described by the specification,
written down independently of `create_post_caption`: the labelled sections
in fixed order, with one `链接：` line per link of `L`; the two blank lines
separate the name, description and link sections from what follows, while
the size and tag lines are adjacent. -/
def canonicalCaption (n d : Str) (L : List Str) (z g2 : Str) : Str :=
  str "名称：" ++ n ++ str "\n\n描述：" ++ d ++ str "\n\n"
    ++ joinNL (L.map (fun li => str "链接：" ++ li))
    ++ str "\n\n📁 大小：" ++ z ++ str "\n🏷 标签：" ++ g2

/- ## Basic lemmas about the string toolkit -/

lemma isPre_nil (l : Str) : isPre [] l = true := rfl

lemma isPre_cons_nil (c : Char) (p : Str) : isPre (c :: p) [] = false := rfl

lemma isPre_cons_cons (a : Char) (p : Str) (b : Char) (l : Str) :
    isPre (a :: p) (b :: l) = if a = b then isPre p l else false := rfl

lemma isPre_append_self (p x : Str) : isPre p (p ++ x) = true := by
  induction p with
  | nil => rfl
  | cons c cs ih => simpa [isPre_cons_cons] using ih

lemma isPre_refl (p : Str) : isPre p p = true := by
  simpa using isPre_append_self p []

lemma isPre_length_le {p l : Str} (h : isPre p l = true) : p.length ≤ l.length := by
  induction p generalizing l with
  | nil => simp
  | cons c cs ih =>
    cases l with
    | nil => simp [isPre_cons_nil] at h
    | cons b bs =>
      rw [isPre_cons_cons] at h
      by_cases hcb : c = b
      · simpa using ih (by simpa [hcb] using h)
      · simp [hcb] at h

lemma isPre_iff_append {p l : Str} : isPre p l = true ↔ ∃ t, l = p ++ t := by
  constructor
  · intro h
    induction p generalizing l with
    | nil => exact ⟨l, rfl⟩
    | cons c cs ih =>
      cases l with
      | nil => simp [isPre_cons_nil] at h
      | cons b bs =>
        rw [isPre_cons_cons] at h
        by_cases hcb : c = b
        · obtain ⟨t, ht⟩ := ih (by simpa [hcb] using h)
          exact ⟨t, by simp [← hcb, ht]⟩
        · simp [hcb] at h
  · rintro ⟨t, rfl⟩
    exact isPre_append_self p t

lemma isPre_append_of_le (p q x : Str) (h : p.length ≤ q.length) :
    isPre p (q ++ x) = isPre p q := by
  induction p generalizing q with
  | nil => rfl
  | cons c cs ih =>
    cases q with
    | nil => simp at h
    | cons b bs =>
      simp only [List.cons_append, isPre_cons_cons]
      by_cases hcb : c = b
      · simp only [hcb, if_pos rfl]
        exact ih bs (by simpa using h)
      · simp [hcb]

lemma isPre_false_of_head {c : Char} {p : Str} {l : Str}
    (h : l.head? ≠ some c) : isPre (c :: p) l = false := by
  cases l with
  | nil => rfl
  | cons b bs =>
    rw [isPre_cons_cons]
    have : c ≠ b := by
      intro hcb
      exact h (by simp [hcb])
    simp [this]

lemma head?_of_isPre {c : Char} {p l : Str} (h : isPre (c :: p) l = true) :
    l.head? = some c := by
  cases l with
  | nil => simp [isPre_cons_nil] at h
  | cons b bs =>
    rw [isPre_cons_cons] at h
    by_cases hcb : c = b
    · simp [hcb]
    · simp [hcb] at h

lemma hasSub_nil_right (pat : Str) : hasSub pat [] = isPre pat [] := rfl

lemma hasSub_cons (pat : Str) (c : Char) (cs : Str) :
    hasSub pat (c :: cs) = (isPre pat (c :: cs) || hasSub pat cs) := rfl

lemma hasSub_iff_exists {pat l : Str} :
    hasSub pat l = true ↔ ∃ k, isPre pat (l.drop k) = true := by
  induction l with
  | nil =>
    constructor
    · intro h; exact ⟨0, h⟩
    · rintro ⟨k, hk⟩; simpa [List.drop_nil] using hk
  | cons c cs ih =>
    rw [hasSub_cons, Bool.or_eq_true, ih]
    constructor
    · rintro (h | ⟨k, hk⟩)
      · exact ⟨0, h⟩
      · exact ⟨k + 1, by simpa using hk⟩
    · rintro ⟨k, hk⟩
      cases k with
      | zero => exact Or.inl (by simpa using hk)
      | succ k => exact Or.inr ⟨k, by simpa using hk⟩

lemma hasSub_of_isPre {pat l : Str} (h : isPre pat l = true) : hasSub pat l = true :=
  hasSub_iff_exists.mpr ⟨0, by simpa using h⟩

lemma not_hasSub_drop {pat l : Str} (h : hasSub pat l = false) (k : Nat) :
    isPre pat (l.drop k) = false := by
  by_contra hne
  have : isPre pat (l.drop k) = true := by
    cases hp : isPre pat (l.drop k) with
    | true => rfl
    | false => exact absurd hp hne
  have := hasSub_iff_exists.mpr ⟨k, this⟩
  rw [h] at this
  exact Bool.noConfusion this

lemma takeWhile_append_of_all {p : Char → Bool} {a : Str} (b : Str)
    (h : ∀ c ∈ a, p c = true) : (a ++ b).takeWhile p = a ++ b.takeWhile p := by
  induction a with
  | nil => rfl
  | cons x xs ih => simp_all [List.takeWhile_cons]

lemma dropWhile_append_of_all {p : Char → Bool} {a : Str} (b : Str)
    (h : ∀ c ∈ a, p c = true) : (a ++ b).dropWhile p = b.dropWhile p := by
  induction a with
  | nil => rfl
  | cons x xs ih => simp_all [List.dropWhile_cons]

lemma takeWhile_eq_self_of_all {p : Char → Bool} {a : Str}
    (h : ∀ c ∈ a, p c = true) : a.takeWhile p = a := by
  simpa using takeWhile_append_of_all (p := p) [] h

lemma dropWhile_eq_nil_of_all {p : Char → Bool} {a : Str}
    (h : ∀ c ∈ a, p c = true) : a.dropWhile p = [] := by
  simpa using dropWhile_append_of_all (p := p) [] h

lemma length_dropWhile_le (p : Char → Bool) (l : Str) :
    (l.dropWhile p).length ≤ l.length := by
  induction l with
  | nil => simp
  | cons x xs ih =>
    by_cases h : p x
    · rw [List.dropWhile_cons_of_pos h]
      exact le_trans ih (by simp)
    · simp [List.dropWhile_cons, h]

/-- A string whose first and last characters are not whitespace is left
unchanged by `pyStrip`. -/
lemma pyStrip_of_ends {l : Str} {c : Char} (hhead : l.head? = some c)
    (hc : isWS c = false) (hlast : ∀ d, l.getLast? = some d → isWS d = false) :
    pyStrip l = l := by
  cases l with
  | nil => simp at hhead
  | cons x xs =>
    have hx : x = c := by simpa using hhead
    subst hx
    unfold pyStrip
    rw [List.dropWhile_cons_of_neg (by simp [hc])]
    cases hrev : (x :: xs).reverse with
    | nil => simp at hrev
    | cons y ys =>
      have hy : (x :: xs).getLast? = some y := by
        rw [List.getLast?_eq_head?_reverse, hrev]; rfl
      rw [List.dropWhile_cons_of_neg (by simp [hlast y hy])]
      rw [← hrev, List.reverse_reverse]

lemma pyStrip_of_all_nonWS {l : Str} (h : ∀ c ∈ l, isWS c = false) :
    pyStrip l = l := by
  cases l with
  | nil => rfl
  | cons x xs =>
    refine pyStrip_of_ends (c := x) rfl (h x (by simp)) ?_
    intro d hd
    obtain ⟨hne, hd'⟩ := List.mem_getLast?_eq_getLast (l := x :: xs) (x := d) (by simp [hd])
    exact h d (hd' ▸ List.getLast_mem hne)

/-- Appending trailing whitespace does not change the stripped value of a
string that is already stripped and non-empty. -/
lemma pyStrip_append_ws {l w : Str} {c : Char} (hhead : l.head? = some c)
    (hc : isWS c = false) (hlast : ∀ d, l.getLast? = some d → isWS d = false)
    (hw : ∀ d ∈ w, isWS d = true) : pyStrip (l ++ w) = l := by
  cases l with
  | nil => simp at hhead
  | cons x xs =>
    have hx : x = c := by simpa using hhead
    subst hx
    unfold pyStrip
    rw [List.cons_append, List.dropWhile_cons_of_neg (by simp [hc])]
    rw [← List.cons_append, List.reverse_append]
    rw [dropWhile_append_of_all _ (by simpa using fun d hd => hw d hd)]
    cases hrev : (x :: xs).reverse with
    | nil => simp at hrev
    | cons y ys =>
      have hy : (x :: xs).getLast? = some y := by
        rw [List.getLast?_eq_head?_reverse, hrev]; rfl
      rw [List.dropWhile_cons_of_neg (by simp [hlast y hy])]
      rw [← hrev, List.reverse_reverse]

/- ## Lemmas about line splitting and joining -/

lemma splitNL_ne_nil (l : Str) : splitNL l ≠ [] := by
  cases l with
  | nil => simp [splitNL]
  | cons c cs =>
    by_cases h : c = '\n'
    · simp [splitNL, h]
    · simp only [splitNL, h, if_neg, ite_false]
      cases splitNL cs <;> simp

lemma splitNL_cons_nl (cs : Str) : splitNL ('\n' :: cs) = [] :: splitNL cs := by
  simp [splitNL]

lemma splitNL_cons_of_ne {c : Char} (h : c ≠ '\n') (cs : Str) :
    splitNL (c :: cs) = (c :: (splitNL cs).headI) :: (splitNL cs).tail := by
  simp only [splitNL, h, ite_false, if_neg]
  cases hs : splitNL cs with
  | nil => exact absurd hs (splitNL_ne_nil cs)
  | cons h t => rfl

lemma splitNL_append_nl (a b : Str) :
    splitNL (a ++ '\n' :: b) = splitNL a ++ splitNL b := by
  induction a with
  | nil => simp [splitNL_cons_nl, splitNL]
  | cons c cs ih =>
    by_cases h : c = '\n'
    · subst h
      simp [splitNL_cons_nl, ih]
    · rw [List.cons_append, splitNL_cons_of_ne h, ih, splitNL_cons_of_ne h]
      cases hs : splitNL cs with
      | nil => exact absurd hs (splitNL_ne_nil cs)
      | cons x t => simp

lemma splitNL_of_no_nl {l : Str} (h : '\n' ∉ l) : splitNL l = [l] := by
  induction l with
  | nil => rfl
  | cons c cs ih =>
    have hc : c ≠ '\n' := fun hc => h (by simp [hc])
    rw [splitNL_cons_of_ne hc, ih (fun hm => h (by simp [hm]))]
    simp [List.headI]

lemma joinNL_cons_of_ne_nil {l : Str} {ls : List Str} (h : ls ≠ []) :
    joinNL (l :: ls) = l ++ '\n' :: joinNL ls := by
  cases ls with
  | nil => exact absurd rfl h
  | cons x t => rfl

lemma joinNL_append {xs ys : List Str} (hxs : xs ≠ []) (hys : ys ≠ []) :
    joinNL (xs ++ ys) = joinNL xs ++ '\n' :: joinNL ys := by
  induction xs with
  | nil => exact absurd rfl hxs
  | cons x xt ih =>
    cases xt with
    | nil =>
      cases ys with
      | nil => exact absurd rfl hys
      | cons y yt => simp [joinNL]
    | cons z zt =>
      rw [List.cons_append, joinNL_cons_of_ne_nil (by simp),
        joinNL_cons_of_ne_nil (by simp), ih (by simp)]
      simp

lemma splitNL_joinNL {ls : List Str} (hne : ls ≠ []) (h : ∀ l ∈ ls, '\n' ∉ l) :
    splitNL (joinNL ls) = ls := by
  induction ls with
  | nil => exact absurd rfl hne
  | cons x xt ih =>
    cases xt with
    | nil => simpa [joinNL] using splitNL_of_no_nl (h x (by simp))
    | cons z zt =>
      rw [joinNL_cons_of_ne_nil (by simp), splitNL_append_nl,
        splitNL_of_no_nl (h x (by simp)), ih (by simp) (fun l hl => h l (by simp [hl]))]
      rfl

lemma splitNL_joinNL_append {ls : List Str} (rest : Str) (hne : ls ≠ [])
    (h : ∀ l ∈ ls, '\n' ∉ l) :
    splitNL (joinNL ls ++ '\n' :: rest) = ls ++ splitNL rest := by
  rw [splitNL_append_nl, splitNL_joinNL hne h]

lemma mem_splitNL_no_nl {l : Str} {x : Str} (h : x ∈ splitNL l) : '\n' ∉ x := by
  induction l generalizing x with
  | nil =>
    simp [splitNL] at h
    simp [h]
  | cons c cs ih =>
    by_cases hc : c = '\n'
    · subst hc
      rw [splitNL_cons_nl] at h
      rcases List.mem_cons.mp h with h0 | h0
      · simp [h0]
      · exact ih h0
    · rw [splitNL_cons_of_ne hc] at h
      rcases List.mem_cons.mp h with h0 | h0
      · subst h0
        intro hmem
        rcases List.mem_cons.mp hmem with h1 | h1
        · exact hc h1.symm
        · cases hs : splitNL cs with
          | nil => exact absurd hs (splitNL_ne_nil cs)
          | cons y t =>
            exact ih (x := (splitNL cs).headI) (by rw [hs]; simp [List.headI, hs]) (by
              rw [hs]; simpa [List.headI, hs] using h1)
      · cases hs : splitNL cs with
        | nil => exact absurd hs (splitNL_ne_nil cs)
        | cons y t =>
          refine ih (x := x) ?_
          rw [hs]
          rw [hs] at h0
          simp at h0
          exact List.mem_cons_of_mem _ h0

/- ## Lemmas about deduplication -/

lemma dedupAux_mem {l : List Str} {seen : List Str} {x : Str} :
    x ∈ dedupAux l seen ↔ x ∈ l ∧ x ∉ seen := by
  induction l generalizing seen with
  | nil => simp [dedupAux]
  | cons y ys ih =>
    by_cases hy : y ∈ seen
    · rw [dedupAux, if_pos hy, ih]
      constructor
      · rintro ⟨hm, hs⟩
        exact ⟨List.mem_cons_of_mem _ hm, hs⟩
      · rintro ⟨hm, hs⟩
        rcases List.mem_cons.mp hm with rfl | hm
        · exact absurd hy hs
        · exact ⟨hm, hs⟩
    · rw [dedupAux, if_neg hy]
      constructor
      · intro hm
        rcases List.mem_cons.mp hm with rfl | hm
        · exact ⟨by simp, hy⟩
        · rw [ih] at hm
          refine ⟨List.mem_cons_of_mem _ hm.1, ?_⟩
          intro hs
          exact hm.2 (List.mem_cons_of_mem _ hs)
      · rintro ⟨hm, hs⟩
        rcases List.mem_cons.mp hm with rfl | hm
        · simp
        · by_cases hxy : x = y
          · simp [hxy]
          · refine List.mem_cons_of_mem _ (ih.mpr ⟨hm, ?_⟩)
            intro hx
            rcases List.mem_cons.mp hx with h | h
            · exact hxy h
            · exact hs h

lemma dedupAux_nodup (l : List Str) (seen : List Str) : (dedupAux l seen).Nodup := by
  induction l generalizing seen with
  | nil => simp [dedupAux]
  | cons y ys ih =>
    by_cases hy : y ∈ seen
    · rw [dedupAux, if_pos hy]
      exact ih seen
    · rw [dedupAux, if_neg hy]
      refine List.nodup_cons.mpr ⟨?_, ih (y :: seen)⟩
      intro hmem
      exact (dedupAux_mem.mp hmem).2 (by simp)

lemma dedupKeepFirst_nodup (l : List Str) : (dedupKeepFirst l).Nodup :=
  dedupAux_nodup l []

lemma dedupKeepFirst_mem {l : List Str} {x : Str} : x ∈ dedupKeepFirst l ↔ x ∈ l := by
  rw [dedupKeepFirst, dedupAux_mem]
  simp

lemma dedupAux_of_nodup {l : List Str} {seen : List Str} (h : l.Nodup)
    (hs : ∀ x ∈ l, x ∉ seen) : dedupAux l seen = l := by
  induction l generalizing seen with
  | nil => rfl
  | cons y ys ih =>
    rw [dedupAux, if_neg (hs y (by simp))]
    rw [List.nodup_cons] at h
    congr 1
    refine ih h.2 ?_
    intro x hx hmem
    rcases List.mem_cons.mp hmem with rfl | hmem
    · exact h.1 hx
    · exact hs x (List.mem_cons_of_mem _ hx) hmem

lemma dedupKeepFirst_of_nodup {l : List Str} (h : l.Nodup) : dedupKeepFirst l = l :=
  dedupAux_of_nodup h (by simp)

lemma dedupKeepFirst_ne_nil {l : List Str} (h : l ≠ []) : dedupKeepFirst l ≠ [] := by
  cases l with
  | nil => exact absurd rfl h
  | cons x xs =>
    intro hd
    have : x ∈ dedupKeepFirst (x :: xs) := dedupKeepFirst_mem.mpr (by simp)
    rw [hd] at this
    exact List.not_mem_nil x this

/- ## Lemmas about the search scaffolding -/

lemma scanOpt_eq_some_of_here {α : Type} {f : Str → Option α} {l : Str} {r : α}
    (h : f l = some r) : scanOpt f l = some r := by
  cases l with
  | nil => simpa [scanOpt] using h
  | cons c cs => simp [scanOpt, h]

lemma scanOpt_cons_none {α : Type} {f : Str → Option α} {c : Char} {cs : Str}
    (h : f (c :: cs) = none) : scanOpt f (c :: cs) = scanOpt f cs := by
  simp [scanOpt, h]

lemma drop_append_lt {a b : Str} {k : Nat} (h : k < a.length) :
    (a ++ b).drop k = a.drop k ++ b :=
  List.drop_append_of_le_length (Nat.le_of_lt h)

lemma exists_head_drop {a : Str} {k : Nat} (h : k < a.length) :
    ∃ c t, a.drop k = c :: t ∧ c ∈ a := by
  cases hd : a.drop k with
  | nil =>
    have := List.length_drop k a
    rw [hd] at this
    simp at this
    omega
  | cons c t =>
    refine ⟨c, t, rfl, ?_⟩
    have : c ∈ a.drop k := by simp [hd]
    exact List.drop_subset k a this

lemma scanOpt_append_none {α : Type} {f : Str → Option α} {a b : Str}
    (h : ∀ k, k < a.length → f ((a ++ b).drop k) = none) :
    scanOpt f (a ++ b) = scanOpt f b := by
  induction a with
  | nil => rfl
  | cons c cs ih =>
    rw [List.cons_append, scanOpt_cons_none (by simpa using h 0 (by simp))]
    refine ih ?_
    intro k hk
    simpa using h (k + 1) (by simpa using hk)

lemma scanOpt_eq_none {α : Type} {f : Str → Option α} {l : Str}
    (h : ∀ k, f (l.drop k) = none) : scanOpt f l = none := by
  induction l with
  | nil => simpa using h 0
  | cons c cs ih =>
    rw [scanOpt_cons_none (by simpa using h 0)]
    refine ih ?_
    intro k
    simpa using h (k + 1)

lemma tryField_none_of_not_isPre {labels : List Str} {colon : Char → Bool}
    {tailF : Str → Option Str} {l : Str}
    (h : ∀ lab ∈ labels, isPre lab l = false) :
    tryField labels colon tailF l = none := by
  rw [tryField, List.findSome?_eq_none_iff]
  intro lab hlab
  simp [h lab hlab]

lemma searchField_skip {labels : List Str} {colon : Char → Bool}
    {tailF : Str → Option Str} {a b : Str}
    (hlabs : ∀ lab ∈ labels, ∃ p t, lab = p :: t)
    (h : ∀ c ∈ a, ∀ lab ∈ labels, ∀ p t, lab = p :: t → p ≠ c) :
    searchField labels colon tailF (a ++ b) = searchField labels colon tailF b := by
  refine scanOpt_append_none ?_
  intro k hk
  obtain ⟨c, t, hd, hc⟩ := exists_head_drop hk
  rw [drop_append_lt hk, hd]
  refine tryField_none_of_not_isPre ?_
  intro lab hlab
  obtain ⟨p, pt, rfl⟩ := hlabs lab hlab
  exact isPre_false_of_head (by simpa using Ne.symm (h c hc _ hlab p pt rfl))

lemma searchField_none {labels : List Str} {colon : Char → Bool}
    {tailF : Str → Option Str} {l : Str}
    (hlabs : ∀ lab ∈ labels, ∃ p t, lab = p :: t)
    (h : ∀ c ∈ l, ∀ lab ∈ labels, ∀ p t, lab = p :: t → p ≠ c) :
    searchField labels colon tailF l = none := by
  refine scanOpt_eq_none ?_
  intro k
  refine tryField_none_of_not_isPre ?_
  intro lab hlab
  obtain ⟨p, pt, rfl⟩ := hlabs lab hlab
  cases hd : l.drop k with
  | nil => rfl
  | cons c t =>
    have hc : c ∈ l := List.drop_subset k l (by simp [hd])
    exact isPre_false_of_head (by simpa using Ne.symm (h c hc _ hlab p pt rfl))

/- ## Fuel adequacy for findall -/

/-- Matchers that consume at least one character. -/
def Consumes (m : Str → Option (Str × Str)) : Prop :=
  ∀ l cap rest, m l = some (cap, rest) → rest.length < l.length

lemma scanall_fuel_eq {m : Str → Option (Str × Str)} (Hm : Consumes m) :
    ∀ (f₁ f₂ : Nat) (l : Str), l.length ≤ f₁ → l.length ≤ f₂ →
      scanall m f₁ l = scanall m f₂ l := by
  intro f₁
  induction f₁ with
  | zero =>
    intro f₂ l h₁ h₂
    have : l = [] := List.eq_nil_of_length_eq_zero (by omega)
    subst this
    cases f₂ <;> rfl
  | succ f ih =>
    intro f₂ l h₁ h₂
    cases l with
    | nil => cases f₂ <;> rfl
    | cons c cs =>
      cases f₂ with
      | zero => simp at h₂
      | succ f₂' =>
        show (match m (c :: cs) with
          | some (cap, rest) => cap :: scanall m f rest
          | none => scanall m f cs) = (match m (c :: cs) with
          | some (cap, rest) => cap :: scanall m f₂' rest
          | none => scanall m f₂' cs)
        cases hm : m (c :: cs) with
        | none =>
          simp only
          exact ih f₂' cs (by simpa using Nat.le_of_succ_le_succ h₁)
            (by simpa using Nat.le_of_succ_le_succ h₂)
        | some pr =>
          obtain ⟨cap, rest⟩ := pr
          simp only
          have hr := Hm _ _ _ hm
          simp only [List.length_cons] at hr h₁ h₂
          rw [ih f₂' rest (by omega) (by omega)]

lemma findall_nil (m : Str → Option (Str × Str)) : findall m [] = [] := rfl

lemma findall_cons_none {m : Str → Option (Str × Str)}
    {c : Char} {cs : Str} (h : m (c :: cs) = none) :
    findall m (c :: cs) = findall m cs := by
  show (match m (c :: cs) with
    | some (cap, rest) => cap :: scanall m cs.length rest
    | none => scanall m cs.length cs) = findall m cs
  rw [h]
  rfl

lemma findall_cons_some {m : Str → Option (Str × Str)} (Hm : Consumes m)
    {l : Str} {cap rest : Str} (h : m l = some (cap, rest)) :
    findall m l = cap :: findall m rest := by
  cases l with
  | nil =>
    have := Hm _ _ _ h
    simp at this
  | cons c cs =>
    have heq : findall m (c :: cs) = (match m (c :: cs) with
      | some (cap, rest) => cap :: scanall m cs.length rest
      | none => scanall m cs.length cs) := rfl
    rw [heq, h]
    show cap :: scanall m cs.length rest = cap :: findall m rest
    have hr := Hm _ _ _ h
    simp only [List.length_cons] at hr
    rw [scanall_fuel_eq Hm cs.length rest.length rest (by omega) (by omega)]
    rfl

lemma findall_append_none {m : Str → Option (Str × Str)}
    {a b : Str} (h : ∀ k, k < a.length → m ((a ++ b).drop k) = none) :
    findall m (a ++ b) = findall m b := by
  induction a with
  | nil => rfl
  | cons c cs ih =>
    rw [List.cons_append, findall_cons_none (by simpa using h 0 (by simp))]
    refine ih ?_
    intro k hk
    simpa using h (k + 1) (by simpa using hk)

lemma findall_eq_nil {m : Str → Option (Str × Str)}
    {l : Str} (h : ∀ k, m (l.drop k) = none) : findall m l = [] := by
  induction l with
  | nil => rfl
  | cons c cs ih =>
    rw [findall_cons_none (by simpa using h 0)]
    refine ih ?_
    intro k
    simpa using h (k + 1)

/- ## Lemmas about the URL matchers -/

lemma isPre_of_append_left {p q x : Str} (h : isPre p (q ++ x) = true) :
    isPre (p.take q.length) q = true := by
  induction q generalizing p with
  | nil => simp [isPre_nil]
  | cons b bs ih =>
    cases p with
    | nil => simp [isPre_nil]
    | cons a as =>
      rw [List.cons_append, isPre_cons_cons] at h
      by_cases hab : a = b
      · rw [List.length_cons, List.take_succ_cons, isPre_cons_cons, if_pos hab]
        exact ih (by simpa [hab] using h)
      · simp [hab] at h

lemma isPre_false_of_take {p q : Str} (h : isPre (p.take q.length) q = false)
    (x : Str) : isPre p (q ++ x) = false := by
  cases hp : isPre p (q ++ x) with
  | false => rfl
  | true => exact absurd (isPre_of_append_left hp) (by simp [h])

lemma provDoms_excl {d d2 : Str} (hd : d ∈ provDoms) (hd2 : d2 ∈ provDoms)
    (hne : d ≠ d2) (X : Str) : isPre d2 (d ++ X) = false := by
  apply isPre_false_of_take
  simp only [provDoms, List.mem_cons, List.not_mem_nil, or_false] at hd hd2
  rcases hd with rfl | rfl | rfl | rfl <;> rcases hd2 with rfl | rfl | rfl | rfl <;>
    first
      | exact absurd rfl hne
      | decide

lemma schemeWS : ∀ c ∈ str "https://", isWS c = false := by decide

lemma schemeWS2 : ∀ c ∈ str "http://", isWS c = false := by decide

lemma provDoms_nonWS {dom : Str} (hd : dom ∈ provDoms) : ∀ c ∈ dom, isWS c = false := by
  simp only [provDoms, List.mem_cons, List.not_mem_nil, or_false] at hd
  rcases hd with rfl | rfl | rfl | rfl <;> decide

/-- The stopper for a maximal `[^\s]+` run: empty remainder or leading
whitespace. -/
def WSBoundary (b : Str) : Prop := b = [] ∨ ∃ c bs, b = c :: bs ∧ isWS c = true

lemma takeWhile_nonWS_boundary {t b : Str} (ht : ∀ c ∈ t, isWS c = false)
    (hb : WSBoundary b) : (t ++ b).takeWhile nonWS = t := by
  rw [takeWhile_append_of_all b (by intro c hc; simp [nonWS, ht c hc])]
  rcases hb with rfl | ⟨c, bs, rfl, hc⟩
  · simp
  · rw [List.takeWhile_cons_of_neg (by simp [nonWS, hc])]
    simp

lemma dropWhile_nonWS_boundary {t b : Str} (ht : ∀ c ∈ t, isWS c = false)
    (hb : WSBoundary b) : (t ++ b).dropWhile nonWS = b := by
  rw [dropWhile_append_of_all b (by intro c hc; simp [nonWS, ht c hc])]
  rcases hb with rfl | ⟨c, bs, rfl, hc⟩
  · simp
  · rw [List.dropWhile_cons_of_neg (by simp [nonWS, hc])]

lemma matchScheme_https (R : Str) :
    matchScheme (str "https://" ++ R) = some (str "https://", R) := by
  rw [matchScheme, if_pos (isPre_append_self _ _)]
  rw [List.drop_left' (by decide)]

lemma matchScheme_http (R : Str) :
    matchScheme (str "http://" ++ R) = some (str "http://", R) := by
  rw [matchScheme, if_neg ?hne, if_pos (isPre_append_self _ _)]
  case hne =>
    rw [isPre_false_of_take (by decide) R]
    simp
  rw [List.drop_left' (by decide)]

lemma matchAnyURL_clean {u b : Str} (h : anyLinkShape u) (hb : WSBoundary b) :
    matchAnyURL (u ++ b) = some (u, b) := by
  obtain ⟨sch, t, hsch, htne, ht, rfl⟩ := h
  rcases hsch with rfl | rfl <;>
    rw [matchAnyURL, List.append_assoc] <;>
    simp only [matchScheme_https, matchScheme_http] <;>
    rw [takeWhile_nonWS_boundary ht hb, dropWhile_nonWS_boundary ht hb, if_neg htne]

/-- The inner per-domain test of `matchProvURL`. -/
def provDomTest (sch r : Str) (dom : Str) : Option (Str × Str) :=
  if isPre dom r then
    let r2 := r.drop dom.length
    let run := r2.takeWhile nonWS
    if run = [] then none else some (sch ++ dom ++ run, r2.dropWhile nonWS)
  else none

lemma matchProvURL_as_test {l : Str} {sch r : Str} (h : matchScheme l = some (sch, r)) :
    matchProvURL l = provDoms.findSome? (provDomTest sch r) := by
  rw [matchProvURL, h]
  rfl

lemma provDomTest_self {sch dom t b : Str}
    (htne : t ≠ []) (ht : ∀ c ∈ t, isWS c = false) (hb : WSBoundary b) :
    provDomTest sch (dom ++ (t ++ b)) dom = some (sch ++ dom ++ t, b) := by
  rw [provDomTest, if_pos (isPre_append_self _ _)]
  simp only [List.drop_left]
  rw [takeWhile_nonWS_boundary ht hb, dropWhile_nonWS_boundary ht hb, if_neg htne]

lemma provDomTest_other {sch dom t : Str} {d2 : Str} (hdom : dom ∈ provDoms)
    (hd2 : d2 ∈ provDoms) (hne : dom ≠ d2) :
    provDomTest sch (dom ++ t) d2 = none := by
  rw [provDomTest, if_neg]
  rw [provDoms_excl hdom hd2 hne t]
  simp

lemma matchProvURL_clean {u b : Str} (h : goodLink u) (hb : WSBoundary b) :
    matchProvURL (u ++ b) = some (u, b) := by
  obtain ⟨sch, dom, t, hsch, hdom, htne, ht, rfl⟩ := h
  have hscheme : matchScheme (sch ++ dom ++ t ++ b) = some (sch, dom ++ (t ++ b)) := by
    rcases hsch with rfl | rfl
    · rw [List.append_assoc, List.append_assoc, matchScheme_https]
    · rw [List.append_assoc, List.append_assoc, matchScheme_http]
  rw [matchProvURL_as_test hscheme]
  have hself := @provDomTest_self sch dom _ _ htne ht hb
  have hother : ∀ d2 ∈ provDoms, dom ≠ d2 →
      provDomTest sch (dom ++ (t ++ b)) d2 = none :=
    fun d2 hd2 hne => provDomTest_other (t := t ++ b) hdom hd2 hne
  have hcons_none : ∀ (d : Str) (ds : List Str), provDomTest sch (dom ++ (t ++ b)) d = none →
      List.findSome? (provDomTest sch (dom ++ (t ++ b))) (d :: ds)
        = List.findSome? (provDomTest sch (dom ++ (t ++ b))) ds := by
    intro d ds hd
    rw [List.findSome?_cons, hd]
  have hcons_some : ∀ (d : Str) (ds : List Str),
      provDomTest sch (dom ++ (t ++ b)) d = some (sch ++ dom ++ t, b) →
      List.findSome? (provDomTest sch (dom ++ (t ++ b))) (d :: ds)
        = some (sch ++ dom ++ t, b) := by
    intro d ds hd
    rw [List.findSome?_cons, hd]
  simp only [provDoms, List.mem_cons, List.not_mem_nil, or_false] at hdom
  show List.findSome? (provDomTest sch (dom ++ (t ++ b))) provDoms = some (sch ++ dom ++ t, b)
  rcases hdom with rfl | rfl | rfl | rfl
  · rw [show provDoms = provDoms from rfl, provDoms]
    exact hcons_some _ _ hself
  · rw [provDoms]
    rw [hcons_none _ _ (hother _ (by simp [provDoms]) (by decide))]
    exact hcons_some _ _ hself
  · rw [provDoms]
    rw [hcons_none _ _ (hother _ (by simp [provDoms]) (by decide))]
    rw [hcons_none _ _ (hother _ (by simp [provDoms]) (by decide))]
    exact hcons_some _ _ hself
  · rw [provDoms]
    rw [hcons_none _ _ (hother _ (by simp [provDoms]) (by decide))]
    rw [hcons_none _ _ (hother _ (by simp [provDoms]) (by decide))]
    rw [hcons_none _ _ (hother _ (by simp [provDoms]) (by decide))]
    exact hcons_some _ _ hself

/- ## Head-character failure lemmas for the matchers -/

lemma matchScheme_none_of_head {l : Str} (h : l.head? ≠ some 'h') :
    matchScheme l = none := by
  rw [matchScheme]
  rw [show str "https://" = 'h' :: str "ttps://" from rfl, isPre_false_of_head h]
  rw [show str "http://" = 'h' :: str "ttp://" from rfl, isPre_false_of_head h]
  simp

lemma matchAnyURL_none_of_head {l : Str} (h : l.head? ≠ some 'h') :
    matchAnyURL l = none := by
  rw [matchAnyURL, matchScheme_none_of_head h]

lemma matchProvURL_none_of_head {l : Str} (h : l.head? ≠ some 'h') :
    matchProvURL l = none := by
  rw [matchProvURL, matchScheme_none_of_head h]

lemma tryLabeledURL_none_of_head {colon : Char → Bool} {l : Str}
    (h : l.head? ≠ some '链') : tryLabeledURL colon l = none := by
  rw [tryLabeledURL]
  rw [show str "链接" = '链' :: str "接" from rfl, isPre_false_of_head h]
  simp

/-- The initial characters of the four provider names. -/
def provNameHeads : List Char := ['夸', '百', 'U', '迅']

lemma provNames_heads : ∀ p ∈ provNames, ∃ hd t, p = hd :: t ∧ hd ∈ provNameHeads := by
  intro p hp
  simp only [provNames, List.mem_cons, List.not_mem_nil, or_false] at hp
  rcases hp with rfl | rfl | rfl | rfl
  · exact ⟨'夸', str "克", rfl, by decide⟩
  · exact ⟨'百', str "度", rfl, by decide⟩
  · exact ⟨'U', str "C", rfl, by decide⟩
  · exact ⟨'迅', str "雷", rfl, by decide⟩

lemma tryPrefixedURL_none_of_head {l : Str}
    (h : ∀ hd ∈ provNameHeads, l.head? ≠ some hd) : tryPrefixedURL l = none := by
  rw [tryPrefixedURL, List.findSome?_eq_none_iff]
  intro p hp
  obtain ⟨hd, t, rfl, hmem⟩ := provNames_heads p hp
  simp [isPre_false_of_head (h hd hmem)]

lemma tryStrictLink_none_of_head {l : Str}
    (h : ∀ hd ∈ 'h' :: provNameHeads, l.head? ≠ some hd) : tryStrictLink l = none := by
  rw [tryStrictLink]
  have h1 : provNames.findSome? (fun p =>
      if isPre p l then
        match l.drop p.length with
        | c :: r => if isColonBoth c then matchProvURL (r.dropWhile isWS) else none
        | [] => none
      else none) = none := by
    rw [List.findSome?_eq_none_iff]
    intro p hp
    obtain ⟨hd, t, rfl, hmem⟩ := provNames_heads p hp
    simp [isPre_false_of_head (h hd (by simp [hmem]))]
  rw [h1]
  exact matchProvURL_none_of_head (h 'h' (by simp))

lemma tryColonURL_none_of_head {l : Str} (h : l.head? ≠ some '：') :
    tryColonURL l = none := by
  cases l with
  | nil => rfl
  | cons c cs =>
    rw [tryColonURL]
    have : c ≠ '：' := by
      intro hc
      exact h (by simp [hc])
    simp [this]

/- ## Consumption bounds for the matchers -/

lemma matchScheme_some_length {l sch r : Str} (h : matchScheme l = some (sch, r)) :
    r.length + 7 ≤ l.length := by
  rw [matchScheme] at h
  by_cases h1 : isPre (str "https://") l = true
  · rw [if_pos h1] at h
    have hle := isPre_length_le h1
    simp only [Option.some.injEq, Prod.mk.injEq] at h
    rw [← h.2, List.length_drop]
    simp [str] at hle ⊢
    omega
  · rw [if_neg h1] at h
    by_cases h2 : isPre (str "http://") l = true
    · rw [if_pos h2] at h
      have hle := isPre_length_le h2
      simp only [Option.some.injEq, Prod.mk.injEq] at h
      rw [← h.2, List.length_drop]
      simp [str] at hle ⊢
      omega
    · rw [if_neg h2] at h
      exact absurd h (by simp)

lemma matchAnyURL_consumes : Consumes matchAnyURL := by
  intro l cap rest h
  rw [matchAnyURL] at h
  cases hs : matchScheme l with
  | none => rw [hs] at h; exact absurd h (by simp)
  | some pr =>
    obtain ⟨sch, r⟩ := pr
    rw [hs] at h
    simp only at h
    by_cases hrun : r.takeWhile nonWS = []
    · rw [if_pos hrun] at h
      exact absurd h (by simp)
    · rw [if_neg hrun] at h
      simp only [Option.some.injEq, Prod.mk.injEq] at h
      have h1 : rest.length ≤ r.length := by
        rw [← h.2]
        exact length_dropWhile_le _ _
      have h2 := matchScheme_some_length hs
      omega

lemma matchProvURL_consumes : Consumes matchProvURL := by
  intro l cap rest h
  cases hs : matchScheme l with
  | none => rw [matchProvURL, hs] at h; exact absurd h (by simp)
  | some pr =>
    obtain ⟨sch, r⟩ := pr
    rw [matchProvURL_as_test hs] at h
    obtain ⟨dom, hdom, hd⟩ := List.exists_of_findSome?_eq_some h
    rw [provDomTest] at hd
    by_cases hp : isPre dom r = true
    · rw [if_pos hp] at hd
      simp only at hd
      by_cases hrun : (r.drop dom.length).takeWhile nonWS = []
      · rw [if_pos hrun] at hd
        exact absurd hd (by simp)
      · rw [if_neg hrun] at hd
        simp only [Option.some.injEq, Prod.mk.injEq] at hd
        have h1 : rest.length ≤ (r.drop dom.length).length := by
          rw [← hd.2]
          exact length_dropWhile_le _ _
        have h2 := matchScheme_some_length hs
        rw [List.length_drop] at h1
        omega
    · rw [if_neg hp] at hd
      exact absurd hd (by simp)

lemma matchAnyURL_after_label_consumes {l : Str} {k : Nat} {cap rest : Str} {r : Str}
    (hk : 1 ≤ k) (hdrop : l.drop k = r)
    (h : matchAnyURL (r.dropWhile isWS) = some (cap, rest)) : rest.length < l.length := by
  have h1 := matchAnyURL_consumes _ _ _ h
  have h2 := length_dropWhile_le isWS r
  have h3 : r.length ≤ l.length - k := by
    rw [← hdrop, List.length_drop]
  have h4 : k ≤ l.length ∨ l.length < k := le_or_lt k l.length
  rcases h4 with h4 | h4
  · omega
  · have : r = [] := by
      rw [← hdrop]
      exact List.drop_eq_nil_of_le (by omega)
    rw [this] at h
    simp only [List.dropWhile_nil] at h
    rw [matchAnyURL, matchScheme] at h
    simp [isPre_cons_nil, show str "https://" = 'h' :: str "ttps://" from rfl,
      show str "http://" = 'h' :: str "ttp://" from rfl] at h

lemma tryLabeledURL_consumes (colon : Char → Bool) : Consumes (tryLabeledURL colon) := by
  intro l cap rest h
  rw [tryLabeledURL] at h
  split at h
  · split at h
    · rename_i c r hd
      split at h
      · have hr : l.drop 3 = r := by
          have h3 : (l.drop 2).drop 1 = l.drop 3 := by
            rw [List.drop_drop]
          rw [← h3, hd]
          rfl
        exact matchAnyURL_after_label_consumes (k := 3) (by omega) hr h
      · exact absurd h (by simp)
    · exact absurd h (by simp)
  · exact absurd h (by simp)

lemma provURL_after_label_consumes {l : Str} {k : Nat} {cap rest : Str} {r : Str}
    (hk : 1 ≤ k) (hdrop : l.drop k = r)
    (h : matchProvURL (r.dropWhile isWS) = some (cap, rest)) : rest.length < l.length := by
  have h1 := matchProvURL_consumes _ _ _ h
  have h2 := length_dropWhile_le isWS r
  have h3 : r.length ≤ l.length - k := by
    rw [← hdrop, List.length_drop]
  have h4 : k ≤ l.length ∨ l.length < k := le_or_lt k l.length
  rcases h4 with h4 | h4
  · omega
  · have : r = [] := by
      rw [← hdrop]
      exact List.drop_eq_nil_of_le (by omega)
    rw [this] at h
    simp only [List.dropWhile_nil] at h
    rw [matchProvURL, matchScheme] at h
    simp [isPre_cons_nil, show str "https://" = 'h' :: str "ttps://" from rfl,
      show str "http://" = 'h' :: str "ttp://" from rfl] at h

lemma provNames_lengths : ∀ p ∈ provNames, p.length = 2 := by decide

lemma tryPrefixedURL_consumes : Consumes tryPrefixedURL := by
  intro l cap rest h
  rw [tryPrefixedURL] at h
  obtain ⟨p, hp, hsome⟩ := List.exists_of_findSome?_eq_some h
  split at hsome
  · split at hsome
    · rename_i c r hd
      split at hsome
      · have hr : l.drop (p.length + 1) = r := by
          have h3 : (l.drop p.length).drop 1 = l.drop (p.length + 1) := by
            rw [List.drop_drop, Nat.add_comm]
          rw [← h3, hd]
          rfl
        exact matchAnyURL_after_label_consumes (k := p.length + 1) (by omega) hr hsome
      · exact absurd hsome (by simp)
    · exact absurd hsome (by simp)
  · exact absurd hsome (by simp)

lemma tryStrictLink_consumes : Consumes tryStrictLink := by
  intro l cap rest h
  rw [tryStrictLink] at h
  cases hfs : provNames.findSome? (fun p =>
      if isPre p l then
        match l.drop p.length with
        | c :: r => if isColonBoth c then matchProvURL (r.dropWhile isWS) else none
        | [] => none
      else none) with
  | some pr =>
    rw [hfs] at h
    simp only [Option.some.injEq] at h
    subst h
    obtain ⟨p, hp, hsome⟩ := List.exists_of_findSome?_eq_some hfs
    split at hsome
    · split at hsome
      · rename_i c r hd
        split at hsome
        · have hr : l.drop (p.length + 1) = r := by
            have h3 : (l.drop p.length).drop 1 = l.drop (p.length + 1) := by
              rw [List.drop_drop, Nat.add_comm]
            rw [← h3, hd]
            rfl
          exact provURL_after_label_consumes (k := p.length + 1) (by omega) hr hsome
        · exact absurd hsome (by simp)
      · exact absurd hsome (by simp)
    · exact absurd hsome (by simp)
  | none =>
    rw [hfs] at h
    exact matchProvURL_consumes _ _ _ h

lemma tryColonURL_consumes_aux {l : Str} {cap : Str} (h : tryColonURL l = some cap) :
    l ≠ [] := by
  intro hl
  rw [hl] at h
  exact absurd h (by simp [tryColonURL])

/- ## Facts about well-formed links -/

lemma head?_append_of_ne_nil {a b : Str} {c : Char} (h : a.head? = some c) :
    (a ++ b).head? = some c := by
  cases a with
  | nil => simp at h
  | cons x xs => simpa using h

lemma goodLink_head {u : Str} (h : goodLink u) : u.head? = some 'h' := by
  obtain ⟨sch, dom, t, hsch, _, _, _, rfl⟩ := h
  rcases hsch with rfl | rfl <;> rfl

lemma goodLink_nonWS {u : Str} (h : goodLink u) : ∀ c ∈ u, isWS c = false := by
  obtain ⟨sch, dom, t, hsch, hdom, _, ht, rfl⟩ := h
  intro c hc
  rw [List.append_assoc] at hc
  rcases List.mem_append.mp hc with hc | hc
  · rcases hsch with rfl | rfl
    · exact schemeWS c hc
    · exact schemeWS2 c hc
  · rcases List.mem_append.mp hc with hc | hc
    · exact provDoms_nonWS hdom c hc
    · exact ht c hc

lemma goodLink_no_nl {u : Str} (h : goodLink u) : '\n' ∉ u := by
  intro hmem
  have := goodLink_nonWS h '\n' hmem
  simp [isWS] at this

lemma goodLink_ne_nil {u : Str} (h : goodLink u) : u ≠ [] := by
  intro hu
  have := goodLink_head h
  rw [hu] at this
  simp at this

lemma goodLink_anyLinkShape {u : Str} (h : goodLink u) : anyLinkShape u := by
  obtain ⟨sch, dom, t, hsch, hdom, htne, ht, rfl⟩ := h
  refine ⟨sch, dom ++ t, hsch, by simp [htne], ?_, by rw [List.append_assoc]⟩
  intro c hc
  rcases List.mem_append.mp hc with hc | hc
  · exact provDoms_nonWS hdom c hc
  · exact ht c hc

lemma goodLink_strip {u : Str} (h : goodLink u) : pyStrip u = u :=
  pyStrip_of_all_nonWS (goodLink_nonWS h)

lemma tryStrictLink_at_link {u b : Str} (h : goodLink u) (hb : WSBoundary b) :
    tryStrictLink (u ++ b) = some (u, b) := by
  rw [tryStrictLink]
  have hhead : (u ++ b).head? = some 'h' := head?_append_of_ne_nil (goodLink_head h)
  have h1 : provNames.findSome? (fun p =>
      if isPre p (u ++ b) then
        match (u ++ b).drop p.length with
        | c :: r => if isColonBoth c then matchProvURL (r.dropWhile isWS) else none
        | [] => none
      else none) = none := by
    rw [List.findSome?_eq_none_iff]
    intro p hp
    obtain ⟨hd, t, rfl, hmem⟩ := provNames_heads p hp
    have : (u ++ b).head? ≠ some hd := by
      rw [hhead]
      intro hc
      simp only [Option.some.injEq] at hc
      revert hmem
      rw [← hc]
      decide
    simp [isPre_false_of_head this]
  rw [h1]
  exact matchProvURL_clean h hb

/- ## format_links on well-formed links -/

lemma provNameColon_false_of_head {l : Str} {c : Char} (hh : l.head? = some c)
    (hc : c ∉ provNameHeads) : provNameColon l = false := by
  rw [provNameColon]
  simp only [List.any_eq_false]
  intro p hp
  obtain ⟨hd, t, rfl, hmem⟩ := provNames_heads p hp
  have : l.head? ≠ some hd := by
    rw [hh]
    intro hce
    simp only [Option.some.injEq] at hce
    exact hc (hce ▸ hmem)
  rw [show (hd :: t) ++ ['：'] = hd :: (t ++ ['：']) from rfl]
  simp [isPre_false_of_head this]

lemma fmtLink_good {u : Str} (h : goodLink u) : fmtLink u = some (str "链接：" ++ u) := by
  rw [fmtLink, goodLink_strip h]
  rw [if_neg (goodLink_ne_nil h)]
  have hhead := goodLink_head h
  rw [show str "链接：" = '链' :: str "接：" from rfl]
  rw [isPre_false_of_head (by rw [hhead]; decide)]
  rw [provNameColon_false_of_head hhead (by decide)]
  simp

lemma filterMap_all_some {f : Str → Option Str} {g : Str → Str} {l : List Str}
    (h : ∀ x ∈ l, f x = some (g x)) : l.filterMap f = l.map g := by
  induction l with
  | nil => rfl
  | cons x xs ih =>
    rw [List.filterMap_cons, h x (by simp), List.map_cons,
      ih (fun y hy => h y (List.mem_cons_of_mem _ hy))]

lemma format_links_good {ls : List Str} (hne : ls ≠ []) (h : ∀ li ∈ ls, goodLink li) :
    format_links (joinNL ls) = joinNL (ls.map (fun li => str "链接：" ++ li)) := by
  rw [format_links, splitNL_joinNL hne (fun l hl => goodLink_no_nl (h l hl))]
  rw [filterMap_all_some (fun x hx => fmtLink_good (h x hx))]
  rw [if_neg (by simpa using hne)]

/- ## remove_duplicate_links on structured line lists -/

lemma removeDupAux_no_links {rest : List Str} {seen : List Str}
    (h : ∀ r ∈ rest, isPre (str "链接：") r = false) :
    removeDupAux rest seen = rest := by
  induction rest generalizing seen with
  | nil => rfl
  | cons x xs ih =>
    rw [removeDupAux]
    rw [h x (by simp)]
    simp only [Bool.false_eq_true, if_neg, ite_false]
    rw [ih (fun r hr => h r (List.mem_cons_of_mem _ hr))]

lemma removeDupAux_link_block {ls : List Str} {rest : List Str} {seen : List Str}
    (hls : ∀ li ∈ ls, pyStrip li = li)
    (hrest : ∀ r ∈ rest, isPre (str "链接：") r = false) :
    removeDupAux (ls.map (fun li => str "链接：" ++ li) ++ rest) seen
      = (dedupAux ls seen).map (fun li => str "链接：" ++ li) ++ rest := by
  induction ls generalizing seen with
  | nil =>
    simp only [List.map_nil, List.nil_append]
    exact removeDupAux_no_links hrest
  | cons li ls ih =>
    rw [List.map_cons, List.cons_append, removeDupAux]
    rw [if_pos (isPre_append_self _ _)]
    have hdrop : (str "链接：" ++ li).drop 3 = li := List.drop_left' (by decide)
    rw [hdrop, hls li (by simp)]
    rw [dedupAux]
    by_cases hmem : li ∈ seen
    · rw [if_pos hmem, if_pos hmem]
      exact ih (fun x hx => hls x (List.mem_cons_of_mem _ hx))
    · rw [if_neg hmem, if_neg hmem]
      rw [ih (fun x hx => hls x (List.mem_cons_of_mem _ hx))]
      simp

lemma mem_joinNL {c : Char} {ls : List Str} (h : c ∈ joinNL ls) :
    c = '\n' ∨ ∃ l ∈ ls, c ∈ l := by
  induction ls with
  | nil => simp [joinNL] at h
  | cons x xs ih =>
    cases xs with
    | nil =>
      right
      exact ⟨x, by simp, by simpa [joinNL] using h⟩
    | cons y ys =>
      rw [joinNL_cons_of_ne_nil (by simp)] at h
      rcases List.mem_append.mp h with h | h
      · exact Or.inr ⟨x, by simp, h⟩
      · rcases List.mem_cons.mp h with rfl | h
        · exact Or.inl rfl
        · rcases ih h with h | ⟨l, hl, hc⟩
          · exact Or.inl h
          · exact Or.inr ⟨l, List.mem_cons_of_mem _ hl, hc⟩

/- ## Stripped strings expose non-whitespace ends -/

lemma pyStrip_length_le (l : Str) : (pyStrip l).length ≤ (l.dropWhile isWS).length := by
  rw [pyStrip, List.length_reverse]
  calc ((l.dropWhile isWS).reverse.dropWhile isWS).length
      ≤ (l.dropWhile isWS).reverse.length := length_dropWhile_le _ _
    _ = (l.dropWhile isWS).length := List.length_reverse _

lemma stripped_head {l : Str} (h : pyStrip l = l) :
    ∀ c, l.head? = some c → isWS c = false := by
  intro c hc
  cases hw : isWS c with
  | false => rfl
  | true =>
    exfalso
    cases l with
    | nil => simp at hc
    | cons x t =>
      have hx : x = c := by simpa using hc
      subst hx
      have h1 : ((x :: t).dropWhile isWS).length ≤ t.length := by
        rw [List.dropWhile_cons_of_pos (by simp [hw])]
        exact length_dropWhile_le _ _
      have h2 := pyStrip_length_le (x :: t)
      rw [h] at h2
      simp only [List.length_cons] at h2
      omega

lemma stripped_last {l : Str} (h : pyStrip l = l) :
    ∀ c, l.getLast? = some c → isWS c = false := by
  intro c hc
  cases hw : isWS c with
  | false => rfl
  | true =>
    exfalso
    cases hA : l.dropWhile isWS with
    | nil =>
      have hnil : pyStrip l = [] := by rw [pyStrip, hA]; rfl
      rw [h] at hnil
      subst hnil
      simp at hc
    | cons a A =>
      have hsplit : l.takeWhile isWS ++ (a :: A) = l := by
        rw [← hA]
        exact List.takeWhile_append_dropWhile isWS l
      have hlast : l.getLast? = (a :: A).getLast? := by
        rw [← hsplit]
        exact List.getLast?_append_of_ne_nil _ (by simp)
      have hrevhead : (a :: A).reverse.head? = some c := by
        rw [← List.getLast?_eq_head?_reverse, ← hlast, hc]
      have h1 : ((a :: A).reverse.dropWhile isWS).length ≤ A.length := by
        cases hrev : (a :: A).reverse with
        | nil => simp at hrev
        | cons y ys =>
          have hy : y = c := by rw [hrev] at hrevhead; simpa using hrevhead
          subst hy
          rw [List.dropWhile_cons_of_pos (by simp [hw])]
          have hlen := congrArg List.length hrev
          simp only [List.length_reverse, List.length_cons] at hlen
          have := length_dropWhile_le isWS ys
          omega
      have h2 : (pyStrip l).length ≤ A.length := by
        rw [pyStrip, hA, List.length_reverse]
        exact h1
      have h3 := congrArg List.length hsplit
      simp only [List.length_append, List.length_cons] at h3
      rw [h] at h2
      omega

/- ## Clean field captures -/

lemma takeWhile_ne_nl {a b : Str} (h : '\n' ∉ a) :
    (a ++ '\n' :: b).takeWhile (fun x => x != '\n') = a := by
  rw [takeWhile_append_of_all _ ?hall]
  case hall =>
    intro c hc
    simp only [bne_iff_ne, ne_eq, decide_eq_true_eq]
    intro he
    exact h (he ▸ hc)
  rw [List.takeWhile_cons_of_neg (by simp)]
  simp

/-- The single-line tail capture after a label, on well-formed input: a
non-empty capture with a non-whitespace first character, up to the next
newline. -/
lemma tailLine_clean {a : Str} {c : Char} {b : Str} (hhead : a.head? = some c)
    (hc : isWS c = false) (hnl : '\n' ∉ a) :
    tailLine (a ++ '\n' :: b) = some a := by
  cases a with
  | nil => simp at hhead
  | cons x xs =>
    have hx : x = c := by simpa using hhead
    subst hx
    have hdw : ((x :: xs) ++ '\n' :: b).dropWhile isWS = x :: (xs ++ '\n' :: b) := by
      rw [List.cons_append, List.dropWhile_cons_of_neg (by simp [hc])]
    rw [tailLine, hdw]
    have ht : (x :: (xs ++ '\n' :: b)).takeWhile (fun y => y != '\n')
        = x :: xs := by
      rw [← List.cons_append]
      exact takeWhile_ne_nl hnl
    simp only
    rw [ht]

/-- Same, at the end of the caption (no following newline). -/
lemma tailLine_clean_last {a : Str} {c : Char} (hhead : a.head? = some c)
    (hc : isWS c = false) (hnl : '\n' ∉ a) :
    tailLine a = some a := by
  cases a with
  | nil => simp at hhead
  | cons x xs =>
    have hx : x = c := by simpa using hhead
    subst hx
    have hdw : (x :: xs).dropWhile isWS = x :: xs :=
      List.dropWhile_cons_of_neg (by simp [hc])
    rw [tailLine, hdw]
    simp only
    rw [takeWhile_eq_self_of_all ?hall]
    case hall =>
      intro y hy
      simp only [bne_iff_ne, ne_eq, decide_eq_true_eq]
      intro he
      exact hnl (he ▸ hy)

lemma stopAt_cons_ne {stops : List Str} {e : Char} {rest : Str} (he : e ≠ '\n') :
    stopAt stops (e :: rest) = false := by
  cases rest with
  | nil => simp [stopAt, he]
  | cons f fs => simp [stopAt, he]

lemma stopAt_nl_cons {stops : List Str} {r : Str} (hr : r ≠ []) :
    stopAt stops ('\n' :: r) = stops.any (fun p => isPre p r) := by
  cases r with
  | nil => exact absurd rfl hr
  | cons f fs =>
    cases hf : decide (f = '\n') with
    | _ => simp [stopAt]

lemma stopAt_nl_nil (stops : List Str) : stopAt stops ['\n'] = true := rfl

lemma isPre_nil_right {p : Str} (h : isPre p [] = true) : p = [] := by
  cases p with
  | nil => rfl
  | cons c cs => simp [isPre_cons_nil] at h

lemma takeUntil_through {stops : List Str} {d : Str} {r : Str}
    (hnl : '\n' ∉ d) (hd : d ≠ []) (hstops : ∀ p ∈ stops, p ≠ [])
    (hstop1 : stops.any (fun p => isPre p ('\n' :: r)) = false)
    (hstop2 : r = [] ∨ stops.any (fun p => isPre p r) = true) :
    takeUntil stops (d ++ '\n' :: '\n' :: r) = d ++ ['\n'] := by
  induction d with
  | nil => exact absurd rfl hd
  | cons x xs ih =>
    rw [List.cons_append, takeUntil]
    cases xs with
    | nil =>
      simp only [List.nil_append]
      rw [if_neg ?hstop]
      case hstop =>
        rw [stopAt_nl_cons (by simp), hstop1]
        simp
      rw [takeUntil]
      rw [if_pos ?hstop2]
      case hstop2 =>
        rcases hstop2 with rfl | hs
        · exact stopAt_nl_nil stops
        · rw [stopAt_nl_cons ?hne, hs]
          case hne =>
            intro hre
            subst hre
            rw [List.any_eq_true] at hs
            obtain ⟨p, hp, hip⟩ := hs
            exact hstops p hp (isPre_nil_right hip)
      rfl
    | cons y ys =>
      have hy : y ≠ '\n' := by
        intro he
        exact hnl (by simp [he])
      rw [if_neg ?hstop3]
      case hstop3 =>
        rw [List.cons_append, stopAt_cons_ne hy]
        simp
      rw [ih (by intro hm; exact hnl (List.mem_cons_of_mem _ hm)) (by simp)]
      simp

/-- The `re.DOTALL` description capture on well-formed input: the capture
runs over the single-line description and the blank line up to the stop
label that follows. -/
lemma tailDotall_clean {stops : List Str} {d : Str} {c : Char} {r : Str}
    (hhead : d.head? = some c) (hc : isWS c = false) (hnl : '\n' ∉ d)
    (hstops : ∀ p ∈ stops, p ≠ [])
    (hstop1 : stops.any (fun p => isPre p ('\n' :: r)) = false)
    (hstop2 : r = [] ∨ stops.any (fun p => isPre p r) = true) :
    tailDotall stops (d ++ '\n' :: '\n' :: r) = some (d ++ ['\n']) := by
  cases d with
  | nil => simp at hhead
  | cons x xs =>
    have hx : x = c := by simpa using hhead
    subst hx
    have hdw : ((x :: xs) ++ '\n' :: '\n' :: r).dropWhile isWS
        = x :: (xs ++ '\n' :: '\n' :: r) := by
      rw [List.cons_append, List.dropWhile_cons_of_neg (by simp [hc])]
    rw [tailDotall, hdw]
    simp only
    rw [show x :: (xs ++ '\n' :: '\n' :: r) = (x :: xs) ++ '\n' :: '\n' :: r from rfl]
    rw [takeUntil_through hnl (by simp) hstops hstop1 hstop2]

/- ## Hitting a labelled field at the current position -/

lemma tryField_hit {labs : List Str} {lab : Str} {colon : Char → Bool}
    {tailF : Str → Option Str} {col : Char} {X : Str} {cap : Str}
    (hcol : colon col = true) (htail : tailF X = some cap) :
    tryField (lab :: labs) colon tailF (lab ++ col :: X) = some cap := by
  rw [tryField, List.findSome?_cons]
  have hbranch : (if isPre lab (lab ++ col :: X) then
      match (lab ++ col :: X).drop lab.length with
      | c :: r => if colon c then tailF r else none
      | [] => none
    else none) = some cap := by
    rw [if_pos (isPre_append_self _ _), List.drop_left]
    simp only
    rw [if_pos hcol, htail]
  rw [hbranch]

lemma searchField_hit {labs : List Str} {lab : Str} {colon : Char → Bool}
    {tailF : Str → Option Str} {col : Char} {X : Str} {cap : Str}
    (hcol : colon col = true) (htail : tailF X = some cap) :
    searchField (lab :: labs) colon tailF (lab ++ col :: X) = some cap :=
  scanOpt_eq_some_of_here (tryField_hit hcol htail)

/- ## findall with the strict link matcher over a link block -/

lemma findall_strict_skip {a b : Str} (h : ∀ c ∈ a, c ∉ ('h' :: provNameHeads)) :
    findall tryStrictLink (a ++ b) = findall tryStrictLink b := by
  refine findall_append_none ?_
  intro k hk
  obtain ⟨c, t, hd, hc⟩ := exists_head_drop hk
  rw [drop_append_lt hk, hd]
  refine tryStrictLink_none_of_head ?_
  intro hd2 hmem heq
  simp only [List.cons_append, List.head?_cons, Option.some.injEq] at heq
  exact h c hc (heq ▸ hmem)

lemma findall_strict_none {S : Str} (h : ∀ c ∈ S, c ∉ ('h' :: provNameHeads)) :
    findall tryStrictLink S = [] := by
  refine findall_eq_nil ?_
  intro k
  cases hd : S.drop k with
  | nil => exact tryStrictLink_none_of_head (by simp)
  | cons c t =>
    have hc : c ∈ S := List.drop_subset k S (by simp [hd])
    refine tryStrictLink_none_of_head ?_
    intro hd2 hmem heq
    simp only [List.head?_cons, Option.some.injEq] at heq
    exact h c hc (heq ▸ hmem)

lemma label_chars_ok : ∀ c ∈ str "链接：", c ∉ ('h' :: provNameHeads) := by decide

lemma findall_strict_chain {L : List Str} {S : Str}
    (hL : ∀ li ∈ L, goodLink li)
    (hS : ∀ c ∈ S, c ∉ ('h' :: provNameHeads)) (hShead : S.head? = some '\n') :
    findall tryStrictLink (joinNL (L.map (fun li => str "链接：" ++ li)) ++ S) = L := by
  obtain ⟨s0, rfl⟩ : ∃ s0, S = '\n' :: s0 := by
    cases S with
    | nil => simp at hShead
    | cons x xs =>
      refine ⟨xs, ?_⟩
      simp only [List.head?_cons, Option.some.injEq] at hShead
      rw [hShead]
  induction L with
  | nil =>
    simp only [List.map_nil]
    rw [show joinNL ([] : List Str) = [] from rfl, List.nil_append]
    exact findall_strict_none hS
  | cons l L' ih =>
    have hgood : goodLink l := hL l (by simp)
    cases L' with
    | nil =>
      simp only [List.map_cons, List.map_nil]
      rw [show joinNL [str "链接：" ++ l] = str "链接：" ++ l from rfl]
      rw [List.append_assoc, findall_strict_skip label_chars_ok]
      rw [findall_cons_some tryStrictLink_consumes
        (tryStrictLink_at_link hgood (Or.inr ⟨'\n', s0, rfl, by decide⟩))]
      rw [findall_strict_none hS]
    | cons l2 L'' =>
      rw [List.map_cons, joinNL_cons_of_ne_nil (by simp)]
      rw [List.append_assoc, List.append_assoc, findall_strict_skip label_chars_ok]
      rw [show ('\n' :: joinNL ((l2 :: L'').map (fun li => str "链接：" ++ li))) ++ '\n' :: s0
          = '\n' :: (joinNL ((l2 :: L'').map (fun li => str "链接：" ++ li)) ++ '\n' :: s0) from rfl]
      rw [findall_cons_some tryStrictLink_consumes
        (tryStrictLink_at_link hgood (Or.inr ⟨'\n', _, rfl, by decide⟩))]
      rw [findall_cons_none (tryStrictLink_none_of_head (by simp; decide))]
      rw [ih (fun li hli => hL li (List.mem_cons_of_mem _ hli))]

/- ## Literal decompositions (all definitional) -/

lemma dec_name (X : Str) : str "名称：" ++ X = str "名称" ++ '：' :: X := rfl

lemma dec_nn_desc (X : Str) :
    str "\n\n描述：" ++ X = '\n' :: '\n' :: (str "描述：" ++ X) := rfl

lemma dec_desc (X : Str) : str "描述：" ++ X = str "描述" ++ '：' :: X := rfl

lemma dec_nn (X : Str) : str "\n\n" ++ X = '\n' :: '\n' :: X := rfl

lemma dec_nn_size (X : Str) :
    str "\n\n📁 大小：" ++ X = '\n' :: '\n' :: '📁' :: ' ' :: (str "大小" ++ '：' :: X) := rfl

lemma dec_n_tags (X : Str) :
    str "\n🏷 标签：" ++ X = '\n' :: '🏷' :: ' ' :: (str "标签" ++ '：' :: X) := rfl

lemma dec_link (X : Str) : str "链接：" ++ X = str "链接" ++ '：' :: X := rfl

/- ## The canonical caption as a joined line list -/

/-- The lines of the canonical caption. -/
def captionLines (n d : Str) (L : List Str) (z g2 : Str) : List Str :=
  [str "名称：" ++ n, [], str "描述：" ++ d, []]
    ++ L.map (fun li => str "链接：" ++ li)
    ++ [[], str "📁 大小：" ++ z, str "🏷 标签：" ++ g2]

lemma canonicalCaption_eq_joinNL (n d : Str) (L : List Str) (z g2 : Str)
    (hLne : L ≠ []) :
    canonicalCaption n d L z g2 = joinNL (captionLines n d L z g2) := by
  rw [captionLines, joinNL_append (by simp) (by simp)]
  rw [joinNL_append (by simp) (by intro h0; exact hLne (List.map_eq_nil_iff.mp h0))]
  rw [canonicalCaption]
  have h4 : joinNL [str "名称：" ++ n, [], str "描述：" ++ d, []]
      = str "名称：" ++ n ++ '\n' :: '\n' :: (str "描述：" ++ d) ++ ['\n'] := by
    simp [joinNL]
  have h3 : joinNL [[], str "📁 大小：" ++ z, str "🏷 标签：" ++ g2]
      = '\n' :: (str "📁 大小：" ++ z) ++ '\n' :: (str "🏷 标签：" ++ g2) := by
    simp [joinNL]
  rw [h4, h3]
  simp only [dec_nn_desc, dec_nn, dec_nn_size, dec_n_tags, List.append_assoc,
    List.cons_append, List.nil_append, List.singleton_append]
  rfl

lemma captionLines_no_nl {n d : Str} {L : List Str} {z g2 : Str}
    (hn : '\n' ∉ n) (hd : '\n' ∉ d) (hz : '\n' ∉ z) (hg : '\n' ∉ g2)
    (hL : ∀ li ∈ L, '\n' ∉ li) :
    ∀ l ∈ captionLines n d L z g2, '\n' ∉ l := by
  intro l hl
  rw [captionLines] at hl
  rcases List.mem_append.mp hl with hl | hl
  · rcases List.mem_append.mp hl with hl | hl
    · simp only [List.mem_cons, List.not_mem_nil, or_false] at hl
      rcases hl with rfl | rfl | rfl | rfl
      · intro hmem
        rcases List.mem_append.mp hmem with hm | hm
        · revert hm; decide
        · exact hn hm
      · simp
      · intro hmem
        rcases List.mem_append.mp hmem with hm | hm
        · revert hm; decide
        · exact hd hm
      · simp
    · obtain ⟨li, hli, rfl⟩ := List.mem_map.mp hl
      intro hmem
      rcases List.mem_append.mp hmem with hm | hm
      · revert hm; decide
      · exact hL li hli hm
  · simp only [List.mem_cons, List.not_mem_nil, or_false] at hl
    rcases hl with rfl | rfl | rfl
    · simp
    · intro hmem
      rcases List.mem_append.mp hmem with hm | hm
      · revert hm; decide
      · exact hz hm
    · intro hmem
      rcases List.mem_append.mp hmem with hm | hm
      · revert hm; decide
      · exact hg hm

lemma isPre_link_false_of_head {a : Str} {c : Char} (ha : a.head? = some c)
    (hc : c ≠ '链') : isPre (str "链接：") a = false := by
  rw [show str "链接：" = '链' :: str "接：" from rfl]
  refine isPre_false_of_head ?_
  rw [ha]
  simpa using hc

lemma isPre_link_nil : isPre (str "链接：") [] = false := rfl

lemma removeDupAux_cons_nonlink {x : Str} {rest seen : List Str}
    (h : isPre (str "链接：") x = false) :
    removeDupAux (x :: rest) seen = x :: removeDupAux rest seen := by
  rw [removeDupAux, h]
  simp

lemma removeDupAux_captionLines {n d : Str} {L : List Str} {z g2 : Str}
    (hL : ∀ li ∈ L, pyStrip li = li) :
    removeDupAux (captionLines n d L z g2) []
      = captionLines n d (dedupKeepFirst L) z g2 := by
  rw [captionLines, List.append_assoc]
  rw [show ([str "名称：" ++ n, [], str "描述：" ++ d, []] : List Str)
      ++ (L.map (fun li => str "链接：" ++ li) ++ [[], str "📁 大小：" ++ z,
        str "🏷 标签：" ++ g2])
    = (str "名称：" ++ n) :: [] :: (str "描述：" ++ d) :: [] ::
      (L.map (fun li => str "链接：" ++ li) ++ [[], str "📁 大小：" ++ z,
        str "🏷 标签：" ++ g2]) from rfl]
  rw [removeDupAux_cons_nonlink (isPre_link_false_of_head
    (head?_append_of_ne_nil (show (str "名称：").head? = some '名' from rfl)) (by decide))]
  rw [removeDupAux_cons_nonlink isPre_link_nil]
  rw [removeDupAux_cons_nonlink (isPre_link_false_of_head
    (head?_append_of_ne_nil (show (str "描述：").head? = some '描' from rfl)) (by decide))]
  rw [removeDupAux_cons_nonlink isPre_link_nil]
  rw [removeDupAux_link_block hL ?hrest]
  case hrest =>
    intro r hr
    simp only [List.mem_cons, List.not_mem_nil, or_false] at hr
    rcases hr with rfl | rfl | rfl
    · exact isPre_link_nil
    · exact isPre_link_false_of_head
        (head?_append_of_ne_nil (show (str "📁 大小：").head? = some '📁' from rfl)) (by decide)
    · exact isPre_link_false_of_head
        (head?_append_of_ne_nil (show (str "🏷 标签：").head? = some '🏷' from rfl)) (by decide)
  rw [captionLines, dedupKeepFirst]
  simp

/- ## The composer on well-formed records -/

lemma create_post_caption_eq {n d : Str} {ls : List Str} {z g : Str}
    (hban : firstBanned n d = none) (hls : ls ≠ [])
    (hgood : ∀ li ∈ ls, goodLink li)
    (hn : '\n' ∉ n) (hd : '\n' ∉ d) (hz : '\n' ∉ z) (hg : '\n' ∉ g)
    (hgne : g ≠ []) :
    create_post_caption ⟨n, d, ls, z, g⟩
      = .ok (canonicalCaption n d (dedupKeepFirst ls) z (g ++ str " #鹏摇星海")) := by
  rw [create_post_caption]
  simp only [hban]
  rw [format_links_good hls hgood, if_neg hgne]
  have hC0 : str "名称：" ++ n ++ str "\n\n描述：" ++ d ++ str "\n\n"
        ++ joinNL (ls.map (fun li => str "链接：" ++ li))
        ++ str "\n\n📁 大小：" ++ z
        ++ str "\n🏷 标签：" ++ (g ++ str " #鹏摇星海")
      = canonicalCaption n d ls z (g ++ str " #鹏摇星海") := by
    rw [canonicalCaption]
  rw [hC0]
  rw [canonicalCaption_eq_joinNL _ _ _ _ _ hls]
  rw [remove_duplicate_links]
  rw [splitNL_joinNL (by simp [captionLines]) (captionLines_no_nl hn hd hz
    (by intro hmem; rcases List.mem_append.mp hmem with hm | hm
        · exact hg hm
        · revert hm; decide)
    (fun li hli => goodLink_no_nl (hgood li hli)))]
  rw [removeDupAux_captionLines (fun li hli => goodLink_strip (hgood li hli))]
  rw [← canonicalCaption_eq_joinNL _ _ _ _ _ (dedupKeepFirst_ne_nil hls)]

/- ## Strict parsing of a canonical caption: field searches -/

lemma strictStops_ne_nil : ∀ p ∈ strictStops, p ≠ [] := by decide

lemma strictStops_heads : ∀ p ∈ strictStops, ∃ hd t, p = hd :: t ∧
    hd ∈ ['链', '夸', '百', 'U', '迅', '📁', '🏷'] := by
  intro p hp
  simp only [strictStops, List.mem_cons, List.not_mem_nil, or_false] at hp
  rcases hp with rfl | rfl | rfl | rfl | rfl | rfl | rfl
  · exact ⟨'链', str "接", rfl, by decide⟩
  · exact ⟨'夸', str "克", rfl, by decide⟩
  · exact ⟨'百', str "度", rfl, by decide⟩
  · exact ⟨'U', str "C", rfl, by decide⟩
  · exact ⟨'迅', str "雷", rfl, by decide⟩
  · exact ⟨'📁', [], rfl, by decide⟩
  · exact ⟨'🏷', [], rfl, by decide⟩

lemma strictStops_any_nl_false (r : Str) :
    strictStops.any (fun p => isPre p ('\n' :: r)) = false := by
  rw [List.any_eq_false]
  intro p hp
  obtain ⟨hd, t, rfl, hmem⟩ := strictStops_heads p hp
  rw [isPre_false_of_head ?hne]
  · simp
  case hne =>
    simp only [List.head?_cons]
    intro heq
    cases heq
    revert hmem
    decide

lemma head_of_stripped {f : Str} (hstrip : pyStrip f = f) (hne : f ≠ []) :
    ∃ c, f.head? = some c ∧ isWS c = false := by
  cases f with
  | nil => exact absurd rfl hne
  | cons c t => exact ⟨c, rfl, stripped_head hstrip c rfl⟩

lemma pyStrip_drop_nl {f : Str} (hstrip : pyStrip f = f) (hne : f ≠ []) :
    pyStrip (f ++ ['\n']) = f := by
  obtain ⟨c, hhead, hc⟩ := head_of_stripped hstrip hne
  exact pyStrip_append_ws hhead hc (stripped_last hstrip) (by decide)

lemma parse_name_canonical {n d : Str} {L : List Str} {z g2 : Str}
    (hnstrip : pyStrip n = n) (hnne : n ≠ []) (hn_nl : '\n' ∉ n) :
    searchField [str "名称", str "资源标题"] isColonBoth tailLine
      (canonicalCaption n d L z g2) = some n := by
  obtain ⟨c, hhead, hc⟩ := head_of_stripped hnstrip hnne
  rw [canonicalCaption]
  simp only [List.append_assoc]
  rw [dec_name]
  refine searchField_hit (by decide) ?_
  rw [dec_nn_desc]
  exact tailLine_clean hhead hc hn_nl

lemma dec_nn_desc_split (X : Str) :
    str "\n\n描述：" ++ X = (['\n', '\n'] : Str) ++ (str "描述：" ++ X) := rfl

lemma linkRegion_isPre {L : List Str} (S2 : Str) (hLne : L ≠ []) :
    isPre (str "链接") (joinNL (L.map (fun li => str "链接：" ++ li)) ++ S2) = true := by
  cases L with
  | nil => exact absurd rfl hLne
  | cons l L' =>
    cases L' with
    | nil =>
      rw [List.map_cons, List.map_nil,
        show joinNL [str "链接：" ++ l] = str "链接：" ++ l from rfl,
        List.append_assoc, dec_link]
      exact isPre_append_self _ _
    | cons l2 L'' =>
      rw [List.map_cons, joinNL_cons_of_ne_nil (by simp), List.append_assoc,
        List.append_assoc, dec_link]
      exact isPre_append_self _ _

lemma parse_desc_canonical {n d : Str} {L : List Str} {z g2 : Str}
    (hdstrip : pyStrip d = d) (hdne : d ≠ []) (hd_nl : '\n' ∉ d)
    (hn_desc : '描' ∉ n) (hLne : L ≠ []) :
    searchField [str "描述"] isColonBoth (tailDotall strictStops)
      (canonicalCaption n d L z g2) = some (d ++ ['\n']) := by
  obtain ⟨c, hhead, hc⟩ := head_of_stripped hdstrip hdne
  rw [canonicalCaption]
  simp only [List.append_assoc]
  rw [dec_nn_desc_split]
  rw [show str "名称：" ++ (n ++ ((['\n', '\n'] : Str) ++ (str "描述：" ++ (d ++
      (str "\n\n" ++ (joinNL (L.map (fun li => str "链接：" ++ li)) ++
        (str "\n\n📁 大小：" ++ (z ++ (str "\n🏷 标签：" ++ g2)))))))))
    = (str "名称：" ++ (n ++ (['\n', '\n'] : Str))) ++ (str "描述：" ++ (d ++
      (str "\n\n" ++ (joinNL (L.map (fun li => str "链接：" ++ li)) ++
        (str "\n\n📁 大小：" ++ (z ++ (str "\n🏷 标签：" ++ g2)))))))
    from by simp [List.append_assoc]]
  rw [searchField_skip ?hlabs ?hchars]
  case hlabs =>
    intro lab hlab
    simp only [List.mem_cons, List.not_mem_nil, or_false] at hlab
    subst hlab
    exact ⟨'描', str "述", rfl⟩
  case hchars =>
    intro ch hch lab hlab p t hlabeq heq
    simp only [List.mem_cons, List.not_mem_nil, or_false] at hlab
    subst hlab
    have hp : '描' = p := by
      have h2 := congrArg List.head? hlabeq
      rw [show List.head? (str "描述") = some '描' from rfl] at h2
      simpa using h2
    rw [← hp] at heq
    subst heq
    rcases List.mem_append.mp hch with hm | hm
    · revert hm; decide
    · rcases List.mem_append.mp hm with hm | hm
      · exact hn_desc hm
      · revert hm; decide
  rw [dec_desc]
  refine searchField_hit (by decide) ?_
  rw [dec_nn]
  refine tailDotall_clean hhead hc hd_nl strictStops_ne_nil (strictStops_any_nl_false _) ?_
  exact Or.inr (by
    rw [List.any_eq_true]
    exact ⟨str "链接", by decide, linkRegion_isPre _ hLne⟩)

lemma parse_links_canonical {n d : Str} {L : List Str} {z g2 : Str}
    (hgood : ∀ li ∈ L, goodLink li)
    (hn : ∀ c ∈ n, c ∉ ('h' :: provNameHeads))
    (hd : ∀ c ∈ d, c ∉ ('h' :: provNameHeads))
    (hz : ∀ c ∈ z, c ∉ ('h' :: provNameHeads))
    (hg : ∀ c ∈ g2, c ∉ ('h' :: provNameHeads)) :
    findall tryStrictLink (canonicalCaption n d L z g2) = L := by
  rw [canonicalCaption]
  simp only [List.append_assoc]
  rw [show str "名称：" ++ (n ++ (str "\n\n描述：" ++ (d ++ (str "\n\n"
        ++ (joinNL (L.map (fun li => str "链接：" ++ li)) ++
          (str "\n\n📁 大小：" ++ (z ++ (str "\n🏷 标签：" ++ g2))))))))
      = (str "名称：" ++ (n ++ (str "\n\n描述：" ++ (d ++ str "\n\n"))))
        ++ (joinNL (L.map (fun li => str "链接：" ++ li))
          ++ (str "\n\n📁 大小：" ++ (z ++ (str "\n🏷 标签：" ++ g2))))
    from by simp [List.append_assoc]]
  rw [findall_strict_skip ?hA]
  case hA =>
    intro c hc
    rcases List.mem_append.mp hc with hm | hm
    · exact (by decide : ∀ c0 ∈ str "名称：", c0 ∉ ('h' :: provNameHeads)) c hm
    · rcases List.mem_append.mp hm with hm | hm
      · exact hn c hm
      · rcases List.mem_append.mp hm with hm | hm
        · exact (by decide : ∀ c0 ∈ str "\n\n描述：", c0 ∉ ('h' :: provNameHeads)) c hm
        · rcases List.mem_append.mp hm with hm | hm
          · exact hd c hm
          · exact (by decide : ∀ c0 ∈ str "\n\n", c0 ∉ ('h' :: provNameHeads)) c hm
  refine findall_strict_chain hgood ?hS rfl
  case hS =>
    intro c hc
    rcases List.mem_append.mp hc with hm | hm
    · exact (by decide : ∀ c0 ∈ str "\n\n📁 大小：", c0 ∉ ('h' :: provNameHeads)) c hm
    · rcases List.mem_append.mp hm with hm | hm
      · exact hz c hm
      · rcases List.mem_append.mp hm with hm | hm
        · exact (by decide : ∀ c0 ∈ str "\n🏷 标签：", c0 ∉ ('h' :: provNameHeads)) c hm
        · exact hg c hm

lemma mem_linkRegion {c : Char} {L : List Str}
    (h : c ∈ joinNL (L.map (fun li => str "链接：" ++ li))) :
    c = '\n' ∨ c ∈ str "链接：" ∨ ∃ li ∈ L, c ∈ li := by
  rcases mem_joinNL h with hc | ⟨l, hl, hc⟩
  · exact Or.inl hc
  · obtain ⟨li, hli, rfl⟩ := List.mem_map.mp hl
    rcases List.mem_append.mp hc with hm | hm
    · exact Or.inr (Or.inl hm)
    · exact Or.inr (Or.inr ⟨li, hli, hm⟩)

lemma parse_size_canonical {n d : Str} {L : List Str} {z g2 : Str}
    (hzstrip : pyStrip z = z) (hzne : z ≠ []) (hz_nl : '\n' ∉ z)
    (hn : '大' ∉ n) (hd : '大' ∉ d) (hL : ∀ li ∈ L, '大' ∉ li) :
    searchField [str "大小"] isColonBoth tailLine
      (canonicalCaption n d L z g2) = some z := by
  obtain ⟨c, hhead, hc⟩ := head_of_stripped hzstrip hzne
  rw [canonicalCaption]
  simp only [List.append_assoc]
  rw [show str "\n\n📁 大小：" ++ (z ++ (str "\n🏷 标签：" ++ g2))
      = (['\n', '\n', '📁', ' '] : Str) ++ (str "大小" ++ '：'
        :: (z ++ (str "\n🏷 标签：" ++ g2))) from rfl]
  rw [show str "名称：" ++ (n ++ (str "\n\n描述：" ++ (d ++ (str "\n\n"
        ++ (joinNL (L.map (fun li => str "链接：" ++ li)) ++
          ((['\n', '\n', '📁', ' '] : Str) ++ (str "大小" ++ '：'
            :: (z ++ (str "\n🏷 标签：" ++ g2)))))))))
      = (str "名称：" ++ (n ++ (str "\n\n描述：" ++ (d ++ (str "\n\n"
        ++ (joinNL (L.map (fun li => str "链接：" ++ li)) ++ (['\n', '\n', '📁', ' '] : Str)))))))
        ++ (str "大小" ++ '：' :: (z ++ (str "\n🏷 标签：" ++ g2)))
    from by simp [List.append_assoc]]
  rw [searchField_skip ?hlabs ?hchars]
  case hlabs =>
    intro lab hlab
    simp only [List.mem_cons, List.not_mem_nil, or_false] at hlab
    subst hlab
    exact ⟨'大', str "小", rfl⟩
  case hchars =>
    intro ch hch lab hlab p t hlabeq heq
    simp only [List.mem_cons, List.not_mem_nil, or_false] at hlab
    subst hlab
    have hp : '大' = p := by
      have h2 := congrArg List.head? hlabeq
      rw [show List.head? (str "大小") = some '大' from rfl] at h2
      simpa using h2
    rw [← hp] at heq
    subst heq
    rcases List.mem_append.mp hch with hm | hm
    · revert hm; decide
    · rcases List.mem_append.mp hm with hm | hm
      · exact hn hm
      · rcases List.mem_append.mp hm with hm | hm
        · revert hm; decide
        · rcases List.mem_append.mp hm with hm | hm
          · exact hd hm
          · rcases List.mem_append.mp hm with hm | hm
            · revert hm; decide
            · rcases List.mem_append.mp hm with hm | hm
              · rcases mem_linkRegion hm with h0 | h0 | ⟨li, hli, h0⟩
                · exact absurd h0 (by decide)
                · revert h0; decide
                · exact hL li hli h0
              · revert hm; decide
  refine searchField_hit (by decide) ?_
  rw [dec_n_tags]
  exact tailLine_clean hhead hc hz_nl

lemma parse_tags_canonical {n d : Str} {L : List Str} {z g2 : Str}
    (hgstrip : pyStrip g2 = g2) (hgne : g2 ≠ []) (hg_nl : '\n' ∉ g2)
    (hn : '标' ∉ n) (hd : '标' ∉ d) (hL : ∀ li ∈ L, '标' ∉ li) (hz : '标' ∉ z) :
    searchField [str "标签"] isColonBoth tailLine
      (canonicalCaption n d L z g2) = some g2 := by
  obtain ⟨c, hhead, hc⟩ := head_of_stripped hgstrip hgne
  rw [canonicalCaption]
  simp only [List.append_assoc]
  rw [show str "\n🏷 标签：" ++ g2
      = (['\n', '🏷', ' '] : Str) ++ (str "标签" ++ '：' :: g2) from rfl]
  rw [show str "名称：" ++ (n ++ (str "\n\n描述：" ++ (d ++ (str "\n\n"
        ++ (joinNL (L.map (fun li => str "链接：" ++ li)) ++
          (str "\n\n📁 大小：" ++ (z ++ ((['\n', '🏷', ' '] : Str)
            ++ (str "标签" ++ '：' :: g2)))))))))
      = (str "名称：" ++ (n ++ (str "\n\n描述：" ++ (d ++ (str "\n\n"
        ++ (joinNL (L.map (fun li => str "链接：" ++ li)) ++
          (str "\n\n📁 大小：" ++ (z ++ (['\n', '🏷', ' '] : Str)))))))))
        ++ (str "标签" ++ '：' :: g2)
    from by simp [List.append_assoc]]
  rw [searchField_skip ?hlabs ?hchars]
  case hlabs =>
    intro lab hlab
    simp only [List.mem_cons, List.not_mem_nil, or_false] at hlab
    subst hlab
    exact ⟨'标', str "签", rfl⟩
  case hchars =>
    intro ch hch lab hlab p t hlabeq heq
    simp only [List.mem_cons, List.not_mem_nil, or_false] at hlab
    subst hlab
    have hp : '标' = p := by
      have h2 := congrArg List.head? hlabeq
      rw [show List.head? (str "标签") = some '标' from rfl] at h2
      simpa using h2
    rw [← hp] at heq
    subst heq
    rcases List.mem_append.mp hch with hm | hm
    · revert hm; decide
    · rcases List.mem_append.mp hm with hm | hm
      · exact hn hm
      · rcases List.mem_append.mp hm with hm | hm
        · revert hm; decide
        · rcases List.mem_append.mp hm with hm | hm
          · exact hd hm
          · rcases List.mem_append.mp hm with hm | hm
            · revert hm; decide
            · rcases List.mem_append.mp hm with hm | hm
              · rcases mem_linkRegion hm with h0 | h0 | ⟨li, hli, h0⟩
                · exact absurd h0 (by decide)
                · revert h0; decide
                · exact hL li hli h0
              · rcases List.mem_append.mp hm with hm | hm
                · revert hm; decide
                · rcases List.mem_append.mp hm with hm | hm
                  · exact hz hm
                  · revert hm; decide
  refine searchField_hit (by decide) ?_
  exact tailLine_clean_last hhead hc hg_nl

/-- Strict parsing of a canonical caption built from clean fields recovers
the record exactly. -/
lemma strict_parse_canonical {n d : Str} {L : List Str} {z g2 : Str}
    (hn1 : pyStrip n = n) (hn2 : n ≠ []) (hn3 : '\n' ∉ n) (hn4 : '描' ∉ n)
    (hn5 : ∀ c ∈ n, c ∉ ('h' :: provNameHeads)) (hn6 : '大' ∉ n) (hn7 : '标' ∉ n)
    (hd1 : pyStrip d = d) (hd2 : d ≠ []) (hd3 : '\n' ∉ d)
    (hd5 : ∀ c ∈ d, c ∉ ('h' :: provNameHeads)) (hd6 : '大' ∉ d) (hd7 : '标' ∉ d)
    (hL1 : ∀ li ∈ L, goodLink li) (hL2 : L ≠ []) (hL3 : L.Nodup)
    (hL6 : ∀ li ∈ L, '大' ∉ li) (hL7 : ∀ li ∈ L, '标' ∉ li)
    (hz1 : pyStrip z = z) (hz2 : z ≠ []) (hz3 : '\n' ∉ z)
    (hz5 : ∀ c ∈ z, c ∉ ('h' :: provNameHeads)) (hz7 : '标' ∉ z)
    (hg1 : pyStrip g2 = g2) (hg2 : g2 ≠ []) (hg3 : '\n' ∉ g2)
    (hg5 : ∀ c ∈ g2, c ∉ ('h' :: provNameHeads)) :
    strict_mode_parse (canonicalCaption n d L z g2) = ⟨n, d, L, z, g2⟩ := by
  rw [strict_mode_parse]
  rw [parse_name_canonical hn1 hn2 hn3]
  rw [parse_desc_canonical hd1 hd2 hd3 hn4 hL2]
  rw [parse_links_canonical hL1 hn5 hd5 hz5 hg5]
  rw [parse_size_canonical hz1 hz2 hz3 hn6 hd6 hL6]
  rw [parse_tags_canonical hg1 hg2 hg3 hn7 hd7 hL7 hz7]
  simp only [dedupKeepFirst_of_nodup hL3]
  rw [if_neg hL2]
  rw [hn1, pyStrip_drop_nl hd1 hd2, hz1, hg1]

/- ## Claim C1 -/

/-- Claim C1, counterexample to the claim as stated: the record with the
single link `https://example.com` is accepted by the composer (no banned
keyword), but re-parsing the composed caption with the strict parser yields
an empty link list — the link set is not recovered, because strict parsing
only extracts URLs of the four providers. -/
theorem C1_roundtrip_counterexample :
    create_post_caption ⟨str "测试", str "介绍", [str "https://example.com"],
        str "1GB", str "#a"⟩
      = .ok (str "名称：测试\n\n描述：介绍\n\n链接：https://example.com\n\n📁 大小：1GB\n🏷 标签：#a #鹏摇星海")
    ∧ (strict_mode_parse
        (str "名称：测试\n\n描述：介绍\n\n链接：https://example.com\n\n📁 大小：1GB\n🏷 标签：#a #鹏摇星海")).links = []
    ∧ dedupKeepFirst [str "https://example.com"] ≠ [] := by
  decide

/-- Claim C1, amended: for every record accepted by the composer whose
name, description, size and tags are non-empty, stripped, single-line and
avoid the parser's label vocabulary (`描述`, `大小`, `标签`) and the
characters that can start a link match, and whose links are well-formed
provider URLs, re-parsing the composed canonical caption with the strict
parser recovers the same name, description and size, the link list with
duplicates removed (first occurrences kept), and the tags with the fixed
promotional tag appended. -/
theorem C1_roundtrip (n d z g : Str) (ls : List Str)
    (hban : firstBanned n d = none)
    (hn1 : pyStrip n = n) (hn2 : n ≠ []) (hn3 : '\n' ∉ n) (hn4 : '描' ∉ n)
    (hn5 : ∀ c ∈ n, c ∉ ('h' :: provNameHeads)) (hn6 : '大' ∉ n) (hn7 : '标' ∉ n)
    (hd1 : pyStrip d = d) (hd2 : d ≠ []) (hd3 : '\n' ∉ d)
    (hd5 : ∀ c ∈ d, c ∉ ('h' :: provNameHeads)) (hd6 : '大' ∉ d) (hd7 : '标' ∉ d)
    (hls : ls ≠ []) (hgood : ∀ li ∈ ls, goodLink li)
    (hl6 : ∀ li ∈ ls, '大' ∉ li) (hl7 : ∀ li ∈ ls, '标' ∉ li)
    (hz1 : pyStrip z = z) (hz2 : z ≠ []) (hz3 : '\n' ∉ z)
    (hz5 : ∀ c ∈ z, c ∉ ('h' :: provNameHeads)) (hz7 : '标' ∉ z)
    (hg1 : pyStrip g = g) (hg2 : g ≠ []) (hg3 : '\n' ∉ g)
    (hg5 : ∀ c ∈ g, c ∉ ('h' :: provNameHeads)) :
    ∃ c, create_post_caption ⟨n, d, ls, z, g⟩ = .ok c ∧
      strict_mode_parse c = ⟨n, d, dedupKeepFirst ls, z, g ++ str " #鹏摇星海"⟩ := by
  refine ⟨canonicalCaption n d (dedupKeepFirst ls) z (g ++ str " #鹏摇星海"), ?_, ?_⟩
  · exact create_post_caption_eq hban hls hgood hn3 hd3 hz3 hg3 hg2
  · have hgoodL : ∀ li ∈ dedupKeepFirst ls, goodLink li :=
      fun li hli => hgood li (dedupKeepFirst_mem.mp hli)
    obtain ⟨cg, hcg, hcgws⟩ := head_of_stripped hg1 hg2
    refine strict_parse_canonical hn1 hn2 hn3 hn4 hn5 hn6 hn7 hd1 hd2 hd3 hd5 hd6 hd7
      hgoodL (dedupKeepFirst_ne_nil hls) (dedupKeepFirst_nodup ls)
      (fun li hli => hl6 li (dedupKeepFirst_mem.mp hli))
      (fun li hli => hl7 li (dedupKeepFirst_mem.mp hli))
      hz1 hz2 hz3 hz5 hz7 ?_ (by simp [hg2]) ?_ ?_
    · refine pyStrip_of_ends (c := cg) (head?_append_of_ne_nil hcg) hcgws ?_
      intro e he
      rw [List.getLast?_append_of_ne_nil _ (by decide)] at he
      have : e = '海' := by
        rw [show (str " #鹏摇星海").getLast? = some '海' from rfl] at he
        simpa using he.symm
      subst this
      decide
    · intro hmem
      rcases List.mem_append.mp hmem with hm | hm
      · exact hg3 hm
      · revert hm; decide
    · intro c hc
      rcases List.mem_append.mp hc with hm | hm
      · exact hg5 c hm
      · exact (by decide : ∀ c0 ∈ str " #鹏摇星海", c0 ∉ ('h' :: provNameHeads)) c hm

/-- Claim C1, witness for the amended round-trip theorem at a concrete
record. -/
theorem C1_roundtrip_witness :
    ∃ c, create_post_caption ⟨str "测试", str "介绍", [str "https://pan.quark.cn/s/x1"],
        str "1GB", str "#a"⟩ = .ok c ∧
      strict_mode_parse c = ⟨str "测试", str "介绍",
        dedupKeepFirst [str "https://pan.quark.cn/s/x1"], str "1GB",
        str "#a" ++ str " #鹏摇星海"⟩ :=
  C1_roundtrip (str "测试") (str "介绍") (str "1GB") (str "#a")
    [str "https://pan.quark.cn/s/x1"]
    (by decide) (by decide) (by decide) (by decide) (by decide) (by decide)
    (by decide) (by decide) (by decide) (by decide) (by decide) (by decide)
    (by decide) (by decide) (by decide)
    (by
      intro li hli
      simp only [List.mem_cons, List.not_mem_nil, or_false] at hli
      subst hli
      exact ⟨str "https://", str "pan.quark.cn/s/", str "x1", Or.inl rfl,
        by decide, by decide, by decide, rfl⟩)
    (by decide) (by decide) (by decide) (by decide) (by decide) (by decide)
    (by decide) (by decide) (by decide) (by decide) (by decide)

/- ## Claim C2 -/

/-- Claim C2, counterexample to the claim as stated: for a link list whose
only link matches no provider marker, the routing function
`get_target_channels` recognizes no link type, yet silently returns exactly
the broadcast channels — it signals no error condition. -/
theorem C2_routing_counterexample :
    identify_link_types [str "https://example.com"] = ∅ ∧
    get_target_channels [str "https://example.com"] = CHANNEL_IDS.toFinset := by
  constructor
  · rfl
  · rfl

/-- Claim C2, amended: when no link of a non-empty link list matches any of
the four provider domain markers, the confirm-callback's link check (not the
channel-routing function) signals the no-recognized-provider condition,
carrying the normalized links back to the caller, while the routing function
`get_target_channels` itself silently falls back to exactly the broadcast
channels. -/
theorem C2_routing (links : List Str) (hne : links ≠ [])
    (hnoprov : ∀ l ∈ links,
      hasSub (str "pan.quark.cn") (normalize_link l) = false ∧
      hasSub (str "pan.baidu.com") (normalize_link l) = false ∧
      hasSub (str "drive.uc.cn") (normalize_link l) = false ∧
      hasSub (str "pan.xunlei.com") (normalize_link l) = false) :
    confirm_routing links = .noRecognizedProvider (links.map normalize_link) ∧
    get_target_channels links = CHANNEL_IDS.toFinset := by
  have hcl : ∀ l ∈ links, classify (normalize_link l) = Tag.unknown := by
    intro l hl
    obtain ⟨h1, h2, h3, h4⟩ := hnoprov l hl
    simp [classify, h1, h2, h3, h4]
  have hlt : identify_link_types links = ∅ := by
    unfold identify_link_types
    rw [List.toFinset_eq_empty_iff, List.filter_eq_nil_iff]
    intro t ht
    obtain ⟨l, hl, rfl⟩ := List.mem_map.mp ht
    simp [hcl l hl]
  constructor
  · unfold confirm_routing
    rw [if_neg hne, if_pos hlt]
  · simp [get_target_channels, hlt]

/-- Claim C2, witness for the amended theorem at a concrete one-element
link list. -/
theorem C2_routing_witness :
    confirm_routing [str "https://example.com"]
      = .noRecognizedProvider ([str "https://example.com"].map normalize_link) ∧
    get_target_channels [str "https://example.com"] = CHANNEL_IDS.toFinset :=
  C2_routing [str "https://example.com"] (by decide)
    (by
      intro l hl
      rw [List.mem_singleton] at hl
      subst hl
      exact ⟨by decide, by decide, by decide, by decide⟩)

/- ## Claim C3 -/

/-- Claim C3: `classify` is total — it always yields one of the five tags —
and matches by substring against the four fixed domain markers in a fixed
priority order with first match winning, yielding `unknown` when none
matches; in particular the quark sample URL classifies as `quark` and
`https://example.com` as `unknown`. -/
theorem C3_classify_total :
    (∀ url : Str, classify url ∈ [Tag.quark, Tag.baidu, Tag.uc, Tag.xunlei, Tag.unknown])
    ∧ (∀ url : Str, hasSub (str "pan.quark.cn") url = true → classify url = Tag.quark)
    ∧ (∀ url : Str, hasSub (str "pan.quark.cn") url = false →
        hasSub (str "pan.baidu.com") url = true → classify url = Tag.baidu)
    ∧ (∀ url : Str, hasSub (str "pan.quark.cn") url = false →
        hasSub (str "pan.baidu.com") url = false →
        hasSub (str "drive.uc.cn") url = true → classify url = Tag.uc)
    ∧ (∀ url : Str, hasSub (str "pan.quark.cn") url = false →
        hasSub (str "pan.baidu.com") url = false →
        hasSub (str "drive.uc.cn") url = false →
        hasSub (str "pan.xunlei.com") url = true → classify url = Tag.xunlei)
    ∧ (∀ url : Str, hasSub (str "pan.quark.cn") url = false →
        hasSub (str "pan.baidu.com") url = false →
        hasSub (str "drive.uc.cn") url = false →
        hasSub (str "pan.xunlei.com") url = false → classify url = Tag.unknown)
    ∧ classify (str "https://pan.quark.cn/s/abc") = Tag.quark
    ∧ classify (str "https://example.com") = Tag.unknown := by
  refine ⟨?_, ?_, ?_, ?_, ?_, ?_, by decide, by decide⟩
  · intro url
    cases h : classify url <;> simp
  · intro url h1
    simp [classify, h1]
  · intro url h1 h2
    simp [classify, h1, h2]
  · intro url h1 h2 h3
    simp [classify, h1, h2, h3]
  · intro url h1 h2 h3 h4
    simp [classify, h1, h2, h3, h4]
  · intro url h1 h2 h3 h4
    simp [classify, h1, h2, h3, h4]

/-- Claim C3, witness: the baidu branch of the priority chain applied at a
concrete URL. -/
theorem C3_classify_total_witness :
    classify (str "https://pan.baidu.com/s/1abc") = Tag.baidu :=
  C3_classify_total.2.2.1 (str "https://pan.baidu.com/s/1abc") (by decide) (by decide)

/- ## Claim C4 -/

/-- Claim C4: for every record whose name or description contains a keyword
of the fixed banned-keyword set, the composer fails with the policy error
carrying the offending keyword (so no caption is produced). -/
theorem C4_policy (pd : PostData)
    (h : ∃ kw ∈ copyright_keywords,
        hasSub kw pd.name = true ∨ hasSub kw pd.description = true) :
    ∃ kw ∈ copyright_keywords,
      (hasSub kw pd.name = true ∨ hasSub kw pd.description = true) ∧
      create_post_caption pd = .error (str "内容包含禁止关键词: " ++ kw) := by
  have hsome : (copyright_keywords.find?
      (fun kw => hasSub kw pd.name || hasSub kw pd.description)).isSome := by
    rw [List.find?_isSome]
    obtain ⟨kw, hmem, hor⟩ := h
    refine ⟨kw, hmem, ?_⟩
    rcases hor with h1 | h1 <;> simp [h1]
  obtain ⟨kw, hkw⟩ := Option.isSome_iff_exists.mp hsome
  refine ⟨kw, List.mem_of_find?_eq_some hkw, ?_, ?_⟩
  · have := List.find?_some hkw
    simpa [Bool.or_eq_true] using this
  · unfold create_post_caption firstBanned
    rw [hkw]

/-- Claim C4, witness: a record whose name contains `版权` is rejected with
the policy error naming that keyword. -/
theorem C4_policy_witness :
    ∃ kw ∈ copyright_keywords,
      (hasSub kw (str "版权声明") = true ∨ hasSub kw (str "介绍") = true) ∧
      create_post_caption ⟨str "版权声明", str "介绍",
          [str "https://pan.quark.cn/s/x1"], str "1GB", str "#a"⟩
        = .error (str "内容包含禁止关键词: " ++ kw) :=
  C4_policy ⟨str "版权声明", str "介绍", [str "https://pan.quark.cn/s/x1"],
      str "1GB", str "#a"⟩
    ⟨str "版权", by decide, Or.inl (by decide)⟩

/- ## Claim C5 -/

/-- Claim C5, counterexample to the claim as stated: in the composed
caption the `📁 大小：` and `🏷 标签：` lines are adjacent — separated by a
single newline, not by a blank line — so not all sections are separated by
blank lines. -/
theorem C5_wire_format_counterexample :
    create_post_caption ⟨str "测试", str "介绍", [str "https://pan.baidu.com/s/c5"],
        str "1GB", str "#a"⟩
      = .ok (str "名称：测试\n\n描述：介绍\n\n链接：https://pan.baidu.com/s/c5\n\n📁 大小：1GB\n🏷 标签：#a #鹏摇星海")
    ∧ splitNL (str "名称：测试\n\n描述：介绍\n\n链接：https://pan.baidu.com/s/c5\n\n📁 大小：1GB\n🏷 标签：#a #鹏摇星海")
      = [str "名称：测试", [], str "描述：介绍", [], str "链接：https://pan.baidu.com/s/c5",
         [], str "📁 大小：1GB", str "🏷 标签：#a #鹏摇星海"] := by
  decide

/-- Claim C5, amended: the composed caption is the canonical wire format
with the labelled sections in the fixed order `名称：`, `描述：`, the
`链接：` lines, `📁 大小：`, `🏷 标签：`, where the name, description and
link sections are separated by blank lines but the size and tag lines are
adjacent; the promotional hashtag is appended to the tags, and the emitted
link list is duplicate-free while preserving every submitted URL (so two
identical links yield exactly one `链接：` line). -/
theorem C5_wire_format (n d z g : Str) (ls : List Str)
    (hban : firstBanned n d = none) (hls : ls ≠ [])
    (hgood : ∀ li ∈ ls, goodLink li)
    (hn : '\n' ∉ n) (hd : '\n' ∉ d) (hz : '\n' ∉ z) (hg : '\n' ∉ g)
    (hgne : g ≠ []) :
    create_post_caption ⟨n, d, ls, z, g⟩
      = .ok (canonicalCaption n d (dedupKeepFirst ls) z (g ++ str " #鹏摇星海")) ∧
    splitNL (canonicalCaption n d (dedupKeepFirst ls) z (g ++ str " #鹏摇星海"))
      = captionLines n d (dedupKeepFirst ls) z (g ++ str " #鹏摇星海") ∧
    (dedupKeepFirst ls).Nodup ∧
    (∀ li, li ∈ dedupKeepFirst ls ↔ li ∈ ls) := by
  have hgoodL : ∀ li ∈ dedupKeepFirst ls, goodLink li :=
    fun li hli => hgood li (dedupKeepFirst_mem.mp hli)
  have hLn : dedupKeepFirst ls ≠ [] := dedupKeepFirst_ne_nil hls
  have hg2 : '\n' ∉ g ++ str " #鹏摇星海" := by
    intro hmem
    rcases List.mem_append.mp hmem with hm | hm
    · exact hg hm
    · revert hm; decide
  refine ⟨create_post_caption_eq hban hls hgood hn hd hz hg hgne, ?_,
    dedupKeepFirst_nodup ls, fun li => dedupKeepFirst_mem⟩
  rw [canonicalCaption_eq_joinNL _ _ _ _ _ hLn]
  exact splitNL_joinNL (by rw [captionLines]; simp)
    (captionLines_no_nl hn hd hz hg2
      (fun li hli => goodLink_no_nl (hgoodL li hli)))

/-- Claim C5, witness at a record with two identical links: the amended
theorem applies, and the deduplicated link list has exactly one element, so
the caption carries exactly one `链接：` line for that URL. -/
theorem C5_wire_format_witness :
    (create_post_caption ⟨str "测试", str "介绍",
        [str "https://pan.baidu.com/s/dup1", str "https://pan.baidu.com/s/dup1"],
        str "1GB", str "#a"⟩
      = .ok (canonicalCaption (str "测试") (str "介绍")
          (dedupKeepFirst [str "https://pan.baidu.com/s/dup1", str "https://pan.baidu.com/s/dup1"])
          (str "1GB") (str "#a" ++ str " #鹏摇星海")) ∧
     splitNL (canonicalCaption (str "测试") (str "介绍")
          (dedupKeepFirst [str "https://pan.baidu.com/s/dup1", str "https://pan.baidu.com/s/dup1"])
          (str "1GB") (str "#a" ++ str " #鹏摇星海"))
      = captionLines (str "测试") (str "介绍")
          (dedupKeepFirst [str "https://pan.baidu.com/s/dup1", str "https://pan.baidu.com/s/dup1"])
          (str "1GB") (str "#a" ++ str " #鹏摇星海") ∧
     (dedupKeepFirst [str "https://pan.baidu.com/s/dup1", str "https://pan.baidu.com/s/dup1"]).Nodup ∧
     (∀ li, li ∈ dedupKeepFirst [str "https://pan.baidu.com/s/dup1", str "https://pan.baidu.com/s/dup1"]
        ↔ li ∈ [str "https://pan.baidu.com/s/dup1", str "https://pan.baidu.com/s/dup1"])) ∧
    dedupKeepFirst [str "https://pan.baidu.com/s/dup1", str "https://pan.baidu.com/s/dup1"]
      = [str "https://pan.baidu.com/s/dup1"] :=
  ⟨C5_wire_format (str "测试") (str "介绍") (str "1GB") (str "#a")
      [str "https://pan.baidu.com/s/dup1", str "https://pan.baidu.com/s/dup1"]
      (by decide) (by decide)
      (by
        intro li hli
        simp only [List.mem_cons, List.not_mem_nil, or_false] at hli
        rcases hli with rfl | rfl <;>
          exact ⟨str "https://", str "pan.baidu.com/s/", str "dup1", Or.inl rfl,
            by decide, by decide, by decide, rfl⟩)
      (by decide) (by decide) (by decide) (by decide) (by decide),
   by decide⟩

/- ## Claim C6 -/

/-- Claim C6: the advertising detector fires exactly when the captured
`描述：` field contains an advertising keyword, or some extracted `链接：`
URL is not anchored at one of the four provider domain prefixes and
contains one of the commerce/social-platform domain substrings; in
particular it fires on a description containing `兼职` and stays quiet on a
clean description with only quark and baidu links. -/
theorem C6_ad_iff :
    (∀ caption : Str, detect_ad_content caption = true ↔
      ((∃ dsc, searchField [str "描述"] isColonFull tailLine caption = some dsc ∧
          ∃ kw ∈ ad_keywords, hasSub kw dsc = true) ∨
       (∃ l ∈ findall (tryLabeledURL isColonFull) caption,
          provider_anchored l = false ∧ ∃ p ∈ suspicious_patterns, hasSub p l = true)))
    ∧ detect_ad_content (str "描述：提供兼职资源\n链接：https://pan.quark.cn/s/abc") = true
    ∧ detect_ad_content
        (str "名称：电影\n描述：好资源\n链接：https://pan.quark.cn/s/abc\n链接：https://pan.baidu.com/s/1xy")
      = false := by
  refine ⟨?_, by decide, by decide⟩
  intro caption
  unfold detect_ad_content
  rw [Bool.or_eq_true]
  refine or_congr ?_ ?_
  · cases hs : searchField [str "描述"] isColonFull tailLine caption with
    | none => simp
    | some dsc => simp [List.any_eq_true]
  · simp [List.any_eq_true, Bool.and_eq_true]

/-- Claim C6, witness: the description branch of the characterization at a
concrete caption. -/
theorem C6_ad_iff_witness :
    detect_ad_content (str "描述：兼职\n链接：https://example.com") = true :=
  (C6_ad_iff.1 (str "描述：兼职\n链接：https://example.com")).mpr
    (Or.inl ⟨str "兼职", by decide, str "兼职", by decide, by decide⟩)

/- ## Claim C8 -/

/-- Claim C8: a link set whose only link matches the baidu marker (and not
the quark one, which is checked first) routes to exactly the two broadcast
channels plus the baidu channel; the baidu caption variant keeps exactly the
non-link lines and the `链接：` lines whose URL contains the baidu marker;
the send plan for a baidu-only post sends `base_message` of the unmodified
caption to both broadcast channels (the caption is a prefix of what they
receive) and the filtered variant to the baidu channel; and a concrete
two-provider caption filtered for baidu drops only the quark link line. -/
theorem C8_baidu_routing :
    (∀ l : Str,
      hasSub (str "pan.quark.cn") (normalize_link l) = false →
      hasSub (str "pan.baidu.com") (normalize_link l) = true →
      get_target_channels [l] = {"@yunpanNB", "@ammmziyuan", "@yunpanbaidu"})
    ∧ (∀ caption : Str,
        create_channel_specific_caption caption Tag.baidu
          = joinNL ((splitNL caption).filter (fun line =>
              !isPre (str "链接：") line
              || hasSub (str "pan.baidu.com") (pyStrip (line.drop 3)))))
    ∧ (∀ caption : Str,
        (splitNL caption).filter (fun line =>
            !isPre (str "链接：") line
            || hasSub (str "pan.baidu.com") (pyStrip (line.drop 3))) ≠ [] →
        splitNL (create_channel_specific_caption caption Tag.baidu)
          = (splitNL caption).filter (fun line =>
              !isPre (str "链接：") line
              || hasSub (str "pan.baidu.com") (pyStrip (line.drop 3))))
    ∧ (∀ caption : Str, publish_messages caption [Tag.baidu]
        = [("@yunpanNB", base_message caption), ("@ammmziyuan", base_message caption),
           ("@yunpanbaidu", specific_message (create_channel_specific_caption caption Tag.baidu))])
    ∧ (∀ caption : Str, isPre caption (base_message caption) = true)
    ∧ create_channel_specific_caption
        (str "名称：测试\n链接：https://pan.baidu.com/s/1abc\n链接：https://pan.quark.cn/s/xyz\n🏷 标签：#a")
        Tag.baidu
      = str "名称：测试\n链接：https://pan.baidu.com/s/1abc\n🏷 标签：#a" := by
  have hck : ∀ line : Str, chanKeep Tag.baidu line
      = (!isPre (str "链接：") line
          || hasSub (str "pan.baidu.com") (pyStrip (line.drop 3))) := by
    intro line
    unfold chanKeep
    cases h : isPre (str "链接：") line <;> simp [h]
  have hvar : ∀ caption : Str,
      create_channel_specific_caption caption Tag.baidu
        = joinNL ((splitNL caption).filter (fun line =>
            !isPre (str "链接：") line
            || hasSub (str "pan.baidu.com") (pyStrip (line.drop 3)))) := by
    intro caption
    unfold create_channel_specific_caption
    rw [List.filter_congr (fun line _ => hck line)]
  refine ⟨?_, hvar, ?_, ?_, ?_, by decide⟩
  · intro l h1 h2
    have hcl : classify (normalize_link l) = Tag.baidu := by
      simp [classify, h1, h2]
    have hlt : identify_link_types [l] = {Tag.baidu} := by
      unfold identify_link_types
      rw [show List.map (fun x => classify (normalize_link x)) [l]
        = [classify (normalize_link l)] from rfl, hcl]
      decide
    have hgt : get_target_channels [l]
        = if identify_link_types [l] = ∅ then CHANNEL_IDS.toFinset
          else CHANNEL_IDS.toFinset ∪ (identify_link_types [l]).biUnion
            (fun t => (SPECIFIC_CHANNELS t).toFinset) := rfl
    rw [hgt, hlt]
    decide
  · intro caption hne
    rw [hvar caption]
    exact splitNL_joinNL hne
      (fun x hx => mem_splitNL_no_nl (List.mem_of_mem_filter hx))
  · intro caption
    rfl
  · intro caption
    unfold base_message
    exact isPre_append_self _ _

/-- Claim C8, witness: the routing branch of the theorem at a concrete
baidu link. -/
theorem C8_baidu_routing_witness :
    get_target_channels [str "https://pan.baidu.com/s/1abc"]
      = {"@yunpanNB", "@ammmziyuan", "@yunpanbaidu"} :=
  C8_baidu_routing.1 (str "https://pan.baidu.com/s/1abc") (by decide) (by decide)

/- ## What the extracted captures look like -/

lemma scanOpt_prop {α : Type} {f : Str → Option α} {P : α → Prop}
    (hf : ∀ s r, f s = some r → P r) :
    ∀ {l : Str} {r : α}, scanOpt f l = some r → P r := by
  intro l
  induction l with
  | nil => intro r h; exact hf [] r h
  | cons c cs ih =>
    intro r h
    rw [scanOpt] at h
    cases hc : f (c :: cs) with
    | some r2 =>
      rw [hc] at h
      cases h
      exact hf _ _ hc
    | none =>
      rw [hc] at h
      exact ih h

lemma scanall_prop {m : Str → Option (Str × Str)} {P : Str → Prop}
    (hm : ∀ s cap rest, m s = some (cap, rest) → P cap) :
    ∀ (fuel : Nat) (l : Str), ∀ cap ∈ scanall m fuel l, P cap := by
  intro fuel
  induction fuel with
  | zero => intro l cap h; simp [scanall] at h
  | succ f ih =>
    intro l cap h
    cases l with
    | nil => simp [scanall] at h
    | cons c cs =>
      rw [scanall] at h
      cases hm2 : m (c :: cs) with
      | some pr =>
        obtain ⟨cp, rest⟩ := pr
        rw [hm2] at h
        rcases List.mem_cons.mp h with rfl | h2
        · exact hm _ _ _ hm2
        · exact ih rest cap h2
      | none =>
        rw [hm2] at h
        exact ih cs cap h

lemma findall_prop {m : Str → Option (Str × Str)} {P : Str → Prop}
    (hm : ∀ s cap rest, m s = some (cap, rest) → P cap) (l : Str) :
    ∀ cap ∈ findall m l, P cap :=
  scanall_prop hm l.length l

lemma mem_takeWhile_pred {p : Char → Bool} : ∀ {l : Str} {x : Char},
    x ∈ l.takeWhile p → p x = true := by
  intro l
  induction l with
  | nil => intro x h; simp at h
  | cons c cs ih =>
    intro x h
    rw [List.takeWhile_cons] at h
    by_cases hc : p c = true
    · rw [if_pos hc] at h
      rcases List.mem_cons.mp h with rfl | h2
      · exact hc
      · exact ih h2
    · rw [if_neg hc] at h
      simp at h

lemma matchScheme_sch {l sch r : Str} (h : matchScheme l = some (sch, r)) :
    sch = str "https://" ∨ sch = str "http://" := by
  rw [matchScheme] at h
  split at h
  · cases h; exact Or.inl rfl
  · split at h
    · cases h; exact Or.inr rfl
    · exact absurd h (by simp)

lemma matchAnyURL_cap_nonWS {s cap rest : Str} (h : matchAnyURL s = some (cap, rest)) :
    ∀ c ∈ cap, isWS c = false := by
  rw [matchAnyURL] at h
  cases hs : matchScheme s with
  | none => rw [hs] at h; exact absurd h (by simp)
  | some pr =>
    obtain ⟨sch, r⟩ := pr
    rw [hs] at h
    simp only at h
    by_cases hrun : r.takeWhile nonWS = []
    · rw [if_pos hrun] at h
      exact absurd h (by simp)
    · rw [if_neg hrun] at h
      simp only [Option.some.injEq, Prod.mk.injEq] at h
      obtain ⟨hcap, hrest⟩ := h
      subst hcap
      intro c hc
      rcases List.mem_append.mp hc with hc | hc
      · rcases matchScheme_sch hs with rfl | rfl
        · exact schemeWS c hc
        · exact schemeWS2 c hc
      · have := mem_takeWhile_pred hc
        simpa [nonWS] using this

lemma matchProvURL_cap_nonWS {s cap rest : Str} (h : matchProvURL s = some (cap, rest)) :
    ∀ c ∈ cap, isWS c = false := by
  cases hs : matchScheme s with
  | none => rw [matchProvURL, hs] at h; exact absurd h (by simp)
  | some pr =>
    obtain ⟨sch, r⟩ := pr
    rw [matchProvURL_as_test hs] at h
    obtain ⟨dom, hdom, hd⟩ := List.exists_of_findSome?_eq_some h
    rw [provDomTest] at hd
    by_cases hp : isPre dom r = true
    · rw [if_pos hp] at hd
      simp only at hd
      by_cases hrun : (r.drop dom.length).takeWhile nonWS = []
      · rw [if_pos hrun] at hd
        exact absurd hd (by simp)
      · rw [if_neg hrun] at hd
        simp only [Option.some.injEq, Prod.mk.injEq] at hd
        obtain ⟨hcap, hrest⟩ := hd
        subst hcap
        intro c hc
        rcases List.mem_append.mp hc with hc | hc
        · rcases List.mem_append.mp hc with hc | hc
          · rcases matchScheme_sch hs with rfl | rfl
            · exact schemeWS c hc
            · exact schemeWS2 c hc
          · exact provDoms_nonWS hdom c hc
        · have := mem_takeWhile_pred hc
          simpa [nonWS] using this
    · rw [if_neg hp] at hd
      exact absurd hd (by simp)

lemma tryLabeledURL_cap_nonWS {colon : Char → Bool} {s cap rest : Str}
    (h : tryLabeledURL colon s = some (cap, rest)) : ∀ c ∈ cap, isWS c = false := by
  rw [tryLabeledURL] at h
  split at h
  · split at h
    · split at h
      · exact matchAnyURL_cap_nonWS h
      · exact absurd h (by simp)
    · exact absurd h (by simp)
  · exact absurd h (by simp)

lemma tryPrefixedURL_cap_nonWS {s cap rest : Str}
    (h : tryPrefixedURL s = some (cap, rest)) : ∀ c ∈ cap, isWS c = false := by
  rw [tryPrefixedURL] at h
  obtain ⟨p, hp, hpp⟩ := List.exists_of_findSome?_eq_some h
  split at hpp
  · split at hpp
    · split at hpp
      · exact matchAnyURL_cap_nonWS hpp
      · exact absurd hpp (by simp)
    · exact absurd hpp (by simp)
  · exact absurd hpp (by simp)

lemma auto_fix_links_nonWS {caption : Str} :
    ∀ u ∈ auto_fix_links caption, ∀ c ∈ u, isWS c = false := by
  intro u hu
  rw [auto_fix_links, dedupKeepFirst_mem] at hu
  rcases List.mem_append.mp hu with hu | hu
  · rcases List.mem_append.mp hu with hu | hu
    · exact findall_prop (fun s cap rest h => tryLabeledURL_cap_nonWS h) _ u hu
    · exact findall_prop (fun s cap rest h => tryPrefixedURL_cap_nonWS h) _ u hu
  · exact findall_prop (fun s cap rest h => matchProvURL_cap_nonWS h) _ u hu

lemma mem_pyStrip {c : Char} {l : Str} (h : c ∈ pyStrip l) : c ∈ l := by
  rw [pyStrip, List.mem_reverse] at h
  have h1 : c ∈ (l.dropWhile isWS).reverse := (List.dropWhile_sublist _).subset h
  rw [List.mem_reverse] at h1
  exact (List.dropWhile_sublist _).subset h1

lemma tryColonURL_no_nl {l u : Str} (h : tryColonURL l = some u) : '\n' ∉ u := by
  rw [tryColonURL.eq_def] at h
  split at h
  · rename_i c t
    split at h
    · cases hm : matchScheme (t.dropWhile isWS) with
      | none => rw [hm] at h; exact absurd h (by simp)
      | some pr =>
        obtain ⟨sch, r1⟩ := pr
        rw [hm] at h
        simp only at h
        by_cases hrun : r1.takeWhile (fun x => x != '\n') = []
        · rw [if_pos hrun] at h
          exact absurd h (by simp)
        · rw [if_neg hrun] at h
          cases h
          intro hmem
          rcases List.mem_append.mp hmem with hs | hr
          · rcases matchScheme_sch hm with rfl | rfl <;> revert hs <;> decide
          · have := mem_takeWhile_pred hr
            simp at this
    · exact absurd h (by simp)
  · exact absurd h (by simp)

lemma searchColonURL_no_nl {l u : Str} (h : searchColonURL l = some u) : '\n' ∉ u :=
  scanOpt_prop (fun s r hr => tryColonURL_no_nl hr) h

lemma fmtLink_isPre {x y : Str} (h : fmtLink x = some y) :
    isPre (str "链接：") y = true := by
  rw [fmtLink] at h
  split at h
  · exact absurd h (by simp)
  · split at h
    · rename_i hpre
      cases h
      exact hpre
    · split at h
      · cases hsc : searchColonURL (pyStrip x) with
        | some url => rw [hsc] at h; cases h; exact isPre_append_self _ _
        | none => rw [hsc] at h; cases h; exact isPre_append_self _ _
      · cases h
        exact isPre_append_self _ _

lemma fmtLink_no_nl {x y : Str} (hx : '\n' ∉ x) (h : fmtLink x = some y) : '\n' ∉ y := by
  have hstrip : '\n' ∉ pyStrip x := fun hm => hx (mem_pyStrip hm)
  rw [fmtLink] at h
  split at h
  · exact absurd h (by simp)
  · split at h
    · cases h
      exact hstrip
    · split at h
      · cases hsc : searchColonURL (pyStrip x) with
        | some url =>
          rw [hsc] at h
          cases h
          intro hmem
          rcases List.mem_append.mp hmem with hm | hm
          · revert hm; decide
          · exact searchColonURL_no_nl hsc hm
        | none =>
          rw [hsc] at h
          cases h
          intro hmem
          rcases List.mem_append.mp hmem with hm | hm
          · revert hm; decide
          · exact hstrip hm
      · cases h
        intro hmem
        rcases List.mem_append.mp hmem with hm | hm
        · revert hm; decide
        · exact hstrip hm

lemma format_links_eq (links_text : Str) :
    format_links links_text
      = joinNL (if (splitNL links_text).filterMap fmtLink = []
          then [str "链接：https://pan.quark.cn/s/3c07afa156f3"]
          else (splitNL links_text).filterMap fmtLink) := rfl

lemma format_links_lines (links_text : Str) :
    ∃ fm : List Str, format_links links_text = joinNL fm ∧ fm ≠ [] ∧
      (∀ y ∈ fm, '\n' ∉ y) ∧ (∀ y ∈ fm, isPre (str "链接：") y = true) := by
  by_cases hfme : (splitNL links_text).filterMap fmtLink = []
  · refine ⟨[str "链接：https://pan.quark.cn/s/3c07afa156f3"], ?_, by simp,
      by decide, by decide⟩
    rw [format_links_eq, if_pos hfme]
  · refine ⟨(splitNL links_text).filterMap fmtLink, ?_, hfme, ?_, ?_⟩
    · rw [format_links_eq, if_neg hfme]
    · intro y hy
      obtain ⟨x, hx, hfx⟩ := List.mem_filterMap.mp hy
      exact fmtLink_no_nl (mem_splitNL_no_nl hx) hfx
    · intro y hy
      obtain ⟨x, hx, hfx⟩ := List.mem_filterMap.mp hy
      exact fmtLink_isPre hfx

lemma link_line_in_shape (n d : Str) (fm : List Str) (z g : Str)
    (hfmt : fm ≠ []) (hnl : ∀ y ∈ fm, '\n' ∉ y)
    (hpre : ∀ y ∈ fm, isPre (str "链接：") y = true) :
    ∃ line ∈ splitNL (str "名称：" ++ n ++ str "\n\n描述：" ++ d ++ str "\n\n"
        ++ joinNL fm ++ str "\n\n📁 大小：" ++ z ++ str "\n🏷 标签：" ++ g),
      isPre (str "链接：") line = true := by
  have hsh : str "名称：" ++ n ++ str "\n\n描述：" ++ d ++ str "\n\n"
        ++ joinNL fm ++ str "\n\n📁 大小：" ++ z ++ str "\n🏷 标签：" ++ g
      = (str "名称：" ++ n ++ str "\n\n描述：" ++ d ++ ['\n'])
        ++ '\n' :: (joinNL fm ++ '\n'
          :: ('\n' :: '📁' :: ' ' :: (str "大小"
            ++ '：' :: (z ++ '\n' :: '🏷' :: ' ' :: (str "标签" ++ '：' :: g))))) := by
    simp only [dec_nn_desc, dec_nn, dec_nn_size, dec_n_tags, List.append_assoc,
      List.cons_append, List.nil_append, List.singleton_append]
  rw [hsh, splitNL_append_nl, splitNL_joinNL_append _ hfmt hnl]
  obtain ⟨y, hy⟩ := List.exists_mem_of_ne_nil _ hfmt
  exact ⟨y, List.mem_append.mpr (Or.inr (List.mem_append.mpr (Or.inl hy))), hpre y hy⟩

lemma auto_fix_message_eq (caption : Str) :
    auto_fix_message caption
      = str "名称：" ++ (match searchField [str "名称"] isColonBoth tailLine caption with
            | some s => pyStrip s
            | none => str "未提供")
        ++ str "\n\n描述："
        ++ (match searchField [str "描述", str "简介"] isColonBoth
              (tailDotall strictStops) caption with
            | some s => pyStrip s
            | none => str "未提供")
        ++ str "\n\n"
        ++ joinNL (if auto_fix_links caption = []
            then [str "链接：https://pan.quark.cn/s/3c07afa156f3"]
            else (auto_fix_links caption).map (fun l => str "链接：" ++ l))
        ++ str "\n\n📁 大小："
        ++ (match searchField [str "大小"] isColonBoth tailLine caption with
            | some s => pyStrip s
            | none => str "NG")
        ++ str "\n🏷 标签："
        ++ (match searchField [str "标签"] isColonBoth tailLine caption with
            | some s => pyStrip s
            | none => str "#网盘资源") := rfl

lemma removeDupAux_subset : ∀ {lines seen : List Str} {x : Str},
    x ∈ removeDupAux lines seen → x ∈ lines := by
  intro lines
  induction lines with
  | nil => intro seen x h; simpa [removeDupAux] using h
  | cons y rest ih =>
    intro seen x h
    rw [removeDupAux] at h
    by_cases hy : isPre (str "链接：") y = true
    · rw [if_pos hy] at h
      by_cases hm : pyStrip (y.drop 3) ∈ seen
      · rw [if_pos hm] at h
        exact List.mem_cons_of_mem _ (ih h)
      · rw [if_neg hm] at h
        rcases List.mem_cons.mp h with rfl | h2
        · simp
        · exact List.mem_cons_of_mem _ (ih h2)
    · rw [if_neg hy] at h
      rcases List.mem_cons.mp h with rfl | h2
      · simp
      · exact List.mem_cons_of_mem _ (ih h2)

lemma removeDupAux_keeps_link : ∀ (lines : List Str),
    (∃ line ∈ lines, isPre (str "链接：") line = true) →
    ∃ line ∈ removeDupAux lines [], isPre (str "链接：") line = true := by
  intro lines
  induction lines with
  | nil =>
    intro h
    obtain ⟨line, hl, _⟩ := h
    simp at hl
  | cons y rest ih =>
    intro h
    obtain ⟨line, hline, hpre⟩ := h
    by_cases hy : isPre (str "链接：") y = true
    · refine ⟨y, ?_, hy⟩
      rw [removeDupAux, if_pos hy, if_neg (by simp)]
      simp
    · rcases List.mem_cons.mp hline with rfl | h2
      · exact absurd hpre hy
      · obtain ⟨l2, hl2, hp2⟩ := ih ⟨line, h2, hpre⟩
        exact ⟨l2, by rw [removeDupAux, if_neg hy]; exact List.mem_cons_of_mem _ hl2, hp2⟩

/- ## Claim C9 -/

/-- Claim C9: every output path carries at least one `链接：` line — the
link normalizer inserts the fixed fallback link when zero lines format, the
best-effort reconstructor does the same when its three passes extract
nothing, and every caption the composer accepts contains a `链接：` line
even after deduplication. -/
theorem C9_always_linked :
    (∀ links_text : Str,
      ∃ line ∈ splitNL (format_links links_text), isPre (str "链接：") line = true)
    ∧ (∀ caption : Str,
      ∃ line ∈ splitNL (auto_fix_message caption), isPre (str "链接：") line = true)
    ∧ (∀ (pd : PostData) (c : Str), create_post_caption pd = Except.ok c →
      ∃ line ∈ splitNL c, isPre (str "链接：") line = true) := by
  refine ⟨?_, ?_, ?_⟩
  · intro links_text
    obtain ⟨fm, heq, hne, hnl, hpre⟩ := format_links_lines links_text
    rw [heq, splitNL_joinNL hne hnl]
    obtain ⟨y, hy⟩ := List.exists_mem_of_ne_nil _ hne
    exact ⟨y, hy, hpre y hy⟩
  · intro caption
    rw [auto_fix_message_eq]
    refine link_line_in_shape _ _ _ _ _ ?_ ?_ ?_
    · split
      · simp
      · rename_i hl
        intro hmap
        exact hl (List.map_eq_nil_iff.mp hmap)
    · intro y hy
      split at hy
      · simp only [List.mem_singleton] at hy
        subst hy
        decide
      · obtain ⟨l, hl, rfl⟩ := List.mem_map.mp hy
        intro hmem
        rcases List.mem_append.mp hmem with hm | hm
        · revert hm; decide
        · have := auto_fix_links_nonWS l hl '\n' hm
          simp [isWS] at this
    · intro y hy
      split at hy
      · simp only [List.mem_singleton] at hy
        subst hy
        decide
      · obtain ⟨l, hl, rfl⟩ := List.mem_map.mp hy
        exact isPre_append_self _ _
  · intro pd c hok
    rw [create_post_caption] at hok
    cases hb : firstBanned pd.name pd.description with
    | some kw =>
      rw [hb] at hok
      exact absurd hok (by simp)
    | none =>
      rw [hb] at hok
      have hok2 : remove_duplicate_links (str "名称：" ++ pd.name ++ str "\n\n描述："
          ++ pd.description ++ str "\n\n" ++ format_links (joinNL pd.links)
          ++ str "\n\n📁 大小：" ++ pd.size ++ str "\n🏷 标签："
          ++ (if pd.tags = [] then str "#鹏摇星海" else pd.tags ++ str " #鹏摇星海")) = c :=
        Except.ok.inj hok
      subst hok2
      obtain ⟨fm, heq, hne, hnl, hpre⟩ := format_links_lines (joinNL pd.links)
      rw [heq, remove_duplicate_links]
      obtain ⟨l0, hl0, hp0⟩ := link_line_in_shape pd.name pd.description fm pd.size
        (if pd.tags = [] then str "#鹏摇星海" else pd.tags ++ str " #鹏摇星海") hne hnl hpre
      obtain ⟨l1, hl1, hp1⟩ := removeDupAux_keeps_link _ ⟨l0, hl0, hp0⟩
      have hRne : removeDupAux (splitNL (str "名称：" ++ pd.name ++ str "\n\n描述："
          ++ pd.description ++ str "\n\n" ++ joinNL fm ++ str "\n\n📁 大小：" ++ pd.size
          ++ str "\n🏷 标签："
          ++ (if pd.tags = [] then str "#鹏摇星海" else pd.tags ++ str " #鹏摇星海"))) [] ≠ [] :=
        List.ne_nil_of_mem hl1
      rw [splitNL_joinNL hRne (fun x hx => mem_splitNL_no_nl (removeDupAux_subset hx))]
      exact ⟨l1, hl1, hp1⟩

/-- Claim C9, witness: the composer branch of the invariant at a concrete
accepted record. -/
theorem C9_always_linked_witness :
    ∃ line ∈ splitNL (str "名称：测试\n\n描述：介绍\n\n链接：https://pan.quark.cn/s/x1\n\n📁 大小：1GB\n🏷 标签：#a #鹏摇星海"),
      isPre (str "链接：") line = true :=
  C9_always_linked.2.2
    ⟨str "测试", str "介绍", [str "https://pan.quark.cn/s/x1"], str "1GB", str "#a"⟩
    (str "名称：测试\n\n描述：介绍\n\n链接：https://pan.quark.cn/s/x1\n\n📁 大小：1GB\n🏷 标签：#a #鹏摇星海")
    (by decide)

/- ## Claim C10 -/

/-- Claim C10, counterexample to the claim as stated: when the text right
after the `描述：` label is empty before the first newline, the greedy
whitespace skip of the capture pattern crosses that newline, so an
advertising keyword standing only after the first newline is captured and
detected — the description check does not inspect only the text between the
label and the first following newline. -/
theorem C10_ad_first_line_counterexample :
    searchField [str "描述"] isColonFull tailLine (str "描述：\n兼职信息")
      = some (str "兼职信息")
    ∧ findall (tryLabeledURL isColonFull) (str "描述：\n兼职信息") = []
    ∧ detect_ad_content (str "描述：\n兼职信息") = true := by
  decide

/-- Claim C10, amended: when the description text immediately after the
leftmost `描述：` label begins with a non-whitespace character (the line
after the label is not blank), the advertising filter's description check
inspects only the text up to the first following newline — the captured
field is exactly that first line, and when it contains no advertising
keyword and no extracted link trips the suspicious-domain check, the
detector returns false regardless of what stands after the newline. -/
theorem C10_ad_first_line (p : Str) (c : Char) (d1 q : Str)
    (hp : '描' ∉ p)
    (hc : isWS c = false) (hd1 : '\n' ∉ (c :: d1))
    (hq : ∀ kw ∈ ad_keywords, hasSub kw (c :: d1) = false)
    (hlinks : ∀ l ∈ findall (tryLabeledURL isColonFull)
        (p ++ (str "描述：" ++ ((c :: d1) ++ '\n' :: q))),
      provider_anchored l = true
        ∨ ∀ pat ∈ suspicious_patterns, hasSub pat l = false) :
    searchField [str "描述"] isColonFull tailLine
        (p ++ (str "描述：" ++ ((c :: d1) ++ '\n' :: q))) = some (c :: d1)
    ∧ detect_ad_content (p ++ (str "描述：" ++ ((c :: d1) ++ '\n' :: q))) = false := by
  have h1 : searchField [str "描述"] isColonFull tailLine
      (p ++ (str "描述：" ++ ((c :: d1) ++ '\n' :: q))) = some (c :: d1) := by
    rw [searchField_skip ?hlabs ?hchars]
    case hlabs =>
      intro lab hlab
      simp only [List.mem_cons, List.not_mem_nil, or_false] at hlab
      subst hlab
      exact ⟨'描', str "述", rfl⟩
    case hchars =>
      intro ch hch lab hlab p0 t0 hlabeq heq
      simp only [List.mem_cons, List.not_mem_nil, or_false] at hlab
      subst hlab
      have hp0 : '描' = p0 := by
        have h2 := congrArg List.head? hlabeq
        rw [show List.head? (str "描述") = some '描' from rfl] at h2
        simpa using h2
      rw [← hp0] at heq
      subst heq
      exact hp hch
    rw [dec_desc]
    exact searchField_hit (by decide) (tailLine_clean (by simp) hc hd1)
  refine ⟨h1, ?_⟩
  have h2 : detect_ad_content (p ++ (str "描述：" ++ ((c :: d1) ++ '\n' :: q)))
      = (ad_keywords.any (fun kw => hasSub kw (c :: d1))
        || (findall (tryLabeledURL isColonFull)
            (p ++ (str "描述：" ++ ((c :: d1) ++ '\n' :: q)))).any (fun l =>
          !provider_anchored l
            && suspicious_patterns.any (fun pat => hasSub pat l))) := by
    rw [detect_ad_content, h1]
  rw [h2, Bool.or_eq_false_iff]
  constructor
  · rw [List.any_eq_false]
    intro kw hkw
    simp [hq kw hkw]
  · rw [List.any_eq_false]
    intro l hl
    rcases hlinks l hl with hpa | hpat
    · simp [hpa]
    · have hs : suspicious_patterns.any (fun pat => hasSub pat l) = false :=
        List.any_eq_false.mpr (fun pat hpm => by simp [hpat pat hpm])
      simp [hs]

/-- Claim C10, witness: a caption whose description's second line contains
the advertising keyword `兼职` is still accepted, and the captured
description field is exactly the first line. -/
theorem C10_ad_first_line_witness :
    searchField [str "描述"] isColonFull tailLine
        (str "名称：电影\n" ++ (str "描述：" ++ (('好' :: str "资源") ++ '\n'
          :: str "这里有兼职信息\n链接：https://pan.quark.cn/s/abc")))
      = some ('好' :: str "资源")
    ∧ detect_ad_content (str "名称：电影\n" ++ (str "描述：" ++ (('好' :: str "资源") ++ '\n'
          :: str "这里有兼职信息\n链接：https://pan.quark.cn/s/abc"))) = false :=
  C10_ad_first_line (str "名称：电影\n") '好' (str "资源")
    (str "这里有兼职信息\n链接：https://pan.quark.cn/s/abc")
    (by decide) (by decide) (by decide) (by decide) (by decide)

/- ## Absence and hit lemmas for the reconstruction pipeline -/

lemma searchField_none_of_heads (heads : List Char) {labels : List Str}
    {colon : Char → Bool} {tailF : Str → Option Str} {l : Str}
    (hlab : ∀ lab ∈ labels, ∃ hd t0, lab = hd :: t0 ∧ hd ∈ heads)
    (hn : ∀ hd ∈ heads, hd ∉ l) :
    searchField labels colon tailF l = none := by
  refine searchField_none ?_ ?_
  · intro lab hl
    obtain ⟨hd, t0, heq, _⟩ := hlab lab hl
    exact ⟨hd, t0, heq⟩
  · intro ch hch lab hl p0 t0 hlabeq
    obtain ⟨hd, t1, rfl, hmem⟩ := hlab lab hl
    have hp0 : hd = p0 := by
      have h2 := congrArg List.head? hlabeq
      simpa using h2
    intro heq
    refine hn hd hmem ?_
    rw [hp0, heq]
    exact hch

lemma searchField_skip_of_heads (heads : List Char) {labels : List Str}
    {colon : Char → Bool} {tailF : Str → Option Str} {a b : Str}
    (hlab : ∀ lab ∈ labels, ∃ hd t0, lab = hd :: t0 ∧ hd ∈ heads)
    (hn : ∀ hd ∈ heads, hd ∉ a) :
    searchField labels colon tailF (a ++ b) = searchField labels colon tailF b := by
  refine searchField_skip ?_ ?_
  · intro lab hl
    obtain ⟨hd, t0, heq, _⟩ := hlab lab hl
    exact ⟨hd, t0, heq⟩
  · intro ch hch lab hl p0 t0 hlabeq
    obtain ⟨hd, t1, rfl, hmem⟩ := hlab lab hl
    have hp0 : hd = p0 := by
      have h2 := congrArg List.head? hlabeq
      simpa using h2
    intro heq
    refine hn hd hmem ?_
    rw [hp0, heq]
    exact hch

lemma findall_labeled_none {colon : Char → Bool} {l : Str} (h : '链' ∉ l) :
    findall (tryLabeledURL colon) l = [] := by
  refine findall_eq_nil ?_
  intro k
  cases hd : l.drop k with
  | nil => exact tryLabeledURL_none_of_head (by simp)
  | cons c0 t0 =>
    have hc0 : c0 ∈ l := List.drop_subset k l (by simp [hd])
    refine tryLabeledURL_none_of_head ?_
    rw [List.head?_cons]
    intro hcon
    simp only [Option.some.injEq] at hcon
    exact h (hcon ▸ hc0)

lemma findall_prefixed_none {l : Str} (h : ∀ hd ∈ provNameHeads, hd ∉ l) :
    findall tryPrefixedURL l = [] := by
  refine findall_eq_nil ?_
  intro k
  cases hd : l.drop k with
  | nil => exact tryPrefixedURL_none_of_head (by simp)
  | cons c0 t0 =>
    have hc0 : c0 ∈ l := List.drop_subset k l (by simp [hd])
    refine tryPrefixedURL_none_of_head ?_
    intro hd2 hmem
    rw [List.head?_cons]
    intro hcon
    simp only [Option.some.injEq] at hcon
    exact h hd2 hmem (hcon ▸ hc0)

lemma findall_prov_single {u : Str} (h : goodLink u) :
    findall matchProvURL u = [u] := by
  have hm : matchProvURL u = some (u, []) := by
    have h2 := matchProvURL_clean h (Or.inl rfl)
    simpa using h2
  rw [findall_cons_some matchProvURL_consumes hm]
  rfl

lemma anySuffixB_of_suffix {f : Str → Bool} : ∀ (a s : Str), f s = true →
    anySuffixB f (a ++ s) = true := by
  intro a
  induction a with
  | nil =>
    intro s h
    cases s with
    | nil => simpa [anySuffixB] using h
    | cons c cs => simp [anySuffixB, h]
  | cons c cs ih =>
    intro s h
    rw [List.cons_append, anySuffixB, ih s h]
    simp

lemma searchAfterSub_none {pat : Str} {cpat : Char} {l : Str}
    (hhead : pat.head? = some cpat) (h : cpat ∉ l) :
    searchAfterSub pat l = none := by
  refine scanOpt_eq_none ?_
  intro k
  cases hd : l.drop k with
  | nil =>
    have hpre : isPre pat [] = false := by
      cases pat with
      | nil => simp at hhead
      | cons pc pr => exact isPre_cons_nil _ _
    simp [hpre]
  | cons c0 t0 =>
    have hc0 : c0 ∈ l := List.drop_subset k l (by simp [hd])
    have hpre : isPre pat (c0 :: t0) = false := by
      cases pat with
      | nil => simp at hhead
      | cons pc pr =>
        have hpc : pc = cpat := by simpa using hhead
        subst hpc
        refine isPre_false_of_head ?_
        rw [List.head?_cons]
        intro hcon
        simp only [Option.some.injEq] at hcon
        exact h (hcon ▸ hc0)
    simp [hpre]

lemma searchAfterSub_here {pat X : Str} :
    searchAfterSub pat (pat ++ X) = some X := by
  refine scanOpt_eq_some_of_here ?_
  show (if isPre pat (pat ++ X) then some ((pat ++ X).drop pat.length) else none)
    = some X
  rw [if_pos (isPre_append_self _ _), List.drop_left]

lemma searchAfterSub_skip {pat : Str} {cpat : Char} {a b : Str}
    (hhead : pat.head? = some cpat) (h : cpat ∉ a) :
    searchAfterSub pat (a ++ b) = searchAfterSub pat b := by
  refine scanOpt_append_none ?_
  intro k hk
  obtain ⟨c0, t0, hd, hc0⟩ := exists_head_drop hk
  rw [drop_append_lt hk, hd]
  have hpre : isPre pat (c0 :: (t0 ++ b)) = false := by
    cases pat with
    | nil => simp at hhead
    | cons pc pr =>
      have hpc : pc = cpat := by simpa using hhead
      subst hpc
      refine isPre_false_of_head ?_
      rw [List.head?_cons]
      intro hcon
      simp only [Option.some.injEq] at hcon
      exact h (hcon ▸ hc0)
  simp [List.cons_append, hpre]

lemma structCheck_none (caption : Str)
    (h : searchAfterSub (str "名称：") caption = none) :
    structCheck caption = false := by
  rw [structCheck, h]

lemma structCheck_pos (caption R1 R2 : Str)
    (h1 : searchAfterSub (str "名称：") caption = some R1)
    (h2 : searchAfterSub (str "\n\n描述：") R1 = some R2)
    (h3 : anySuffixB blockTail R2 = true) :
    structCheck caption = true := by
  rw [structCheck, h1]
  simp only [h2]
  exact h3

lemma parseUnit_hit {u : Str} (h : goodLink u) (B2 : Str) :
    parseUnit (str "链接：" ++ (u ++ '\n' :: B2)) = some B2 := by
  have hdw : (u ++ '\n' :: B2).dropWhile isWS = u ++ '\n' :: B2 := by
    cases hu : u with
    | nil => exact absurd hu (goodLink_ne_nil h)
    | cons cu cs =>
      have hcu : cu = 'h' := by
        have h2 := goodLink_head h
        rw [hu] at h2
        simpa using h2
      subst hcu
      rw [List.cons_append]
      exact List.dropWhile_cons_of_neg (by decide)
  rw [parseUnit, if_pos (isPre_append_self _ _)]
  rw [show (str "链接：" ++ (u ++ '\n' :: B2)).drop 3 = u ++ '\n' :: B2
    from List.drop_left' (by decide)]
  rw [hdw]
  rw [matchAnyURL_clean (goodLink_anyLinkShape h) (Or.inr ⟨'\n', B2, rfl, by decide⟩)]
  rfl

lemma blockTail_hit {u : Str} (h : goodLink u) :
    blockTail ('\n' :: '\n'
      :: (str "链接：" ++ (u ++ '\n' :: str "\n📁 大小：NG\n🏷 标签：#网盘资源"))) = true := by
  show (match parseUnit (str "链接："
      ++ (u ++ '\n' :: str "\n📁 大小：NG\n🏷 标签：#网盘资源")) with
    | none => false
    | some r1 =>
      let r2 := unitsStar r1.length r1
      if isPre (str "\n📁 大小：") r2 then
        hasSub (str "\n🏷 标签：") (r2.drop (str "\n📁 大小：").length)
      else false) = true
  rw [parseUnit_hit h]
  decide

/- ## Claim C7 -/

/-- Claim C7: for a photo submission whose caption is a bare baidu share
URL (no labels at all), the strict structural check fails, the
reconstructor's three link passes extract exactly that URL, the rebuilt
caption substitutes the sentinels `未提供`, `NG` and `#网盘资源` for the
missing fields, the rebuilt caption passes the structural check, and the
submission is accepted with the rebuilt caption. -/
theorem C7_autofix_accepts (t : Str) (ht1 : t ≠ [])
    (ht2 : ∀ ch ∈ t, isWS ch = false)
    (ht3 : ∀ ch ∈ t, ch ∉ ['名', '资', '描', '简', '链', '大', '标', '夸', '百', 'U', '迅']) :
    structCheck (str "https://pan.baidu.com/s/" ++ t) = false
    ∧ auto_fix_links (str "https://pan.baidu.com/s/" ++ t)
        = [str "https://pan.baidu.com/s/" ++ t]
    ∧ auto_fix_message (str "https://pan.baidu.com/s/" ++ t)
        = str "名称：未提供\n\n描述：未提供\n\n" ++ (str "链接："
            ++ ((str "https://pan.baidu.com/s/" ++ t)
              ++ str "\n\n📁 大小：NG\n🏷 标签：#网盘资源"))
    ∧ structCheck (str "名称：未提供\n\n描述：未提供\n\n" ++ (str "链接："
            ++ ((str "https://pan.baidu.com/s/" ++ t)
              ++ str "\n\n📁 大小：NG\n🏷 标签：#网盘资源"))) = true
    ∧ handle_message true (some (str "https://pan.baidu.com/s/" ++ t))
        = Decision.accepted (str "名称：未提供\n\n描述：未提供\n\n" ++ (str "链接："
            ++ ((str "https://pan.baidu.com/s/" ++ t)
              ++ str "\n\n📁 大小：NG\n🏷 标签：#网盘资源"))) := by
  have hcap : ∀ ch ∈ str "https://pan.baidu.com/s/" ++ t,
      ch ∉ ['名', '资', '描', '简', '链', '大', '标', '夸', '百', 'U', '迅'] := by
    intro ch hch
    rcases List.mem_append.mp hch with hm | hm
    · exact (by decide : ∀ c0 ∈ str "https://pan.baidu.com/s/",
        c0 ∉ ['名', '资', '描', '简', '链', '大', '标', '夸', '百', 'U', '迅']) ch hm
    · exact ht3 ch hm
  have hsub : ∀ (hs : List Char),
      (∀ hd0 ∈ hs, hd0 ∈ ['名', '资', '描', '简', '链', '大', '标', '夸', '百', 'U', '迅']) →
      ∀ hd ∈ hs, hd ∉ str "https://pan.baidu.com/s/" ++ t :=
    fun hs hins hd hm hmem => hcap hd hmem (hins hd hm)
  have hgoodcap : goodLink (str "https://pan.baidu.com/s/" ++ t) :=
    ⟨str "https://", str "pan.baidu.com/s/", t, Or.inl rfl, by decide, ht1, ht2, rfl⟩
  -- the reconstructor's field searches all miss
  have hsnNR : searchField [str "名称", str "资源标题"] isColonBoth tailLine
      (str "https://pan.baidu.com/s/" ++ t) = none := by
    refine searchField_none_of_heads ['名', '资'] ?_ (hsub _ (by decide))
    intro lab hl
    simp only [List.mem_cons, List.not_mem_nil, or_false] at hl
    rcases hl with rfl | rfl
    · exact ⟨'名', str "称", rfl, by decide⟩
    · exact ⟨'资', str "源标题", rfl, by decide⟩
  have hsdCAP : searchField [str "描述"] isColonFull tailLine
      (str "https://pan.baidu.com/s/" ++ t) = none := by
    refine searchField_none_of_heads ['描'] ?_ (hsub _ (by decide))
    intro lab hl
    simp only [List.mem_cons, List.not_mem_nil, or_false] at hl
    subst hl
    exact ⟨'描', str "述", rfl, by decide⟩
  have hsfN2 : searchField [str "名称"] isColonBoth tailLine
      (str "https://pan.baidu.com/s/" ++ t) = none := by
    refine searchField_none_of_heads ['名'] ?_ (hsub _ (by decide))
    intro lab hl
    simp only [List.mem_cons, List.not_mem_nil, or_false] at hl
    subst hl
    exact ⟨'名', str "称", rfl, by decide⟩
  have hsfD2 : searchField [str "描述", str "简介"] isColonBoth (tailDotall strictStops)
      (str "https://pan.baidu.com/s/" ++ t) = none := by
    refine searchField_none_of_heads ['描', '简'] ?_ (hsub _ (by decide))
    intro lab hl
    simp only [List.mem_cons, List.not_mem_nil, or_false] at hl
    rcases hl with rfl | rfl
    · exact ⟨'描', str "述", rfl, by decide⟩
    · exact ⟨'简', str "介", rfl, by decide⟩
  have hsfZ : searchField [str "大小"] isColonBoth tailLine
      (str "https://pan.baidu.com/s/" ++ t) = none := by
    refine searchField_none_of_heads ['大'] ?_ (hsub _ (by decide))
    intro lab hl
    simp only [List.mem_cons, List.not_mem_nil, or_false] at hl
    subst hl
    exact ⟨'大', str "小", rfl, by decide⟩
  have hsfG : searchField [str "标签"] isColonBoth tailLine
      (str "https://pan.baidu.com/s/" ++ t) = none := by
    refine searchField_none_of_heads ['标'] ?_ (hsub _ (by decide))
    intro lab hl
    simp only [List.mem_cons, List.not_mem_nil, or_false] at hl
    subst hl
    exact ⟨'标', str "签", rfl, by decide⟩
  have hlk : '链' ∉ str "https://pan.baidu.com/s/" ++ t :=
    fun hmem => hcap '链' hmem (by decide)
  -- the three link passes
  have hlinks_eq : auto_fix_links (str "https://pan.baidu.com/s/" ++ t)
      = [str "https://pan.baidu.com/s/" ++ t] := by
    rw [auto_fix_links, findall_labeled_none hlk,
      findall_prefixed_none (fun hd hm => hsub provNameHeads (by decide) hd hm),
      findall_prov_single hgoodcap]
    simp [dedupKeepFirst, dedupAux]
  -- the rebuilt caption
  have hafm : auto_fix_message (str "https://pan.baidu.com/s/" ++ t)
      = str "名称：未提供\n\n描述：未提供\n\n" ++ (str "链接："
          ++ ((str "https://pan.baidu.com/s/" ++ t)
            ++ str "\n\n📁 大小：NG\n🏷 标签：#网盘资源")) := by
    rw [auto_fix_message_eq, hsfN2, hsfD2, hsfZ, hsfG, hlinks_eq]
    rw [if_neg (by simp : ¬([str "https://pan.baidu.com/s/" ++ t] = []))]
    simp only [List.map_cons, List.map_nil]
    rw [show joinNL [str "链接：" ++ (str "https://pan.baidu.com/s/" ++ t)]
      = str "链接：" ++ (str "https://pan.baidu.com/s/" ++ t) from rfl]
    simp only [List.append_assoc]
    rw [show str "\n\n📁 大小：" ++ (str "NG" ++ (str "\n🏷 标签：" ++ str "#网盘资源"))
      = str "\n\n📁 大小：NG\n🏷 标签：#网盘资源" from rfl]
    rfl
  -- the original caption fails validation and is not an ad
  have hsc1 : structCheck (str "https://pan.baidu.com/s/" ++ t) = false := by
    refine structCheck_none _ ?_
    refine searchAfterSub_none (show (str "名称：").head? = some '名' from rfl) ?_
    intro hmem
    exact hcap '名' hmem (by decide)
  have had1 : detect_ad_content (str "https://pan.baidu.com/s/" ++ t) = false := by
    rw [detect_ad_content, hsdCAP, findall_labeled_none hlk]
    rfl
  -- the rebuilt caption is not an ad
  have hsfD_fixed : searchField [str "描述"] isColonFull tailLine
      (str "名称：未提供\n\n描述：未提供\n\n" ++ (str "链接："
        ++ ((str "https://pan.baidu.com/s/" ++ t)
          ++ str "\n\n📁 大小：NG\n🏷 标签：#网盘资源")))
      = some (str "未提供") := by
    rw [show str "名称：未提供\n\n描述：未提供\n\n" ++ (str "链接："
        ++ ((str "https://pan.baidu.com/s/" ++ t)
          ++ str "\n\n📁 大小：NG\n🏷 标签：#网盘资源"))
      = str "名称：未提供\n\n" ++ (str "描述：" ++ (str "未提供" ++ '\n'
        :: ('\n' :: (str "链接：" ++ ((str "https://pan.baidu.com/s/" ++ t)
          ++ str "\n\n📁 大小：NG\n🏷 标签：#网盘资源"))))) from rfl]
    rw [searchField_skip_of_heads ['描'] ?hlabD (by decide)]
    case hlabD =>
      intro lab hl
      simp only [List.mem_cons, List.not_mem_nil, or_false] at hl
      subst hl
      exact ⟨'描', str "述", rfl, by decide⟩
    rw [dec_desc]
    exact searchField_hit (by decide)
      (tailLine_clean (show (str "未提供").head? = some '未' from rfl) (by decide) (by decide))
  have hlab_hit : tryLabeledURL isColonFull (str "链接："
      ++ ((str "https://pan.baidu.com/s/" ++ t)
        ++ str "\n\n📁 大小：NG\n🏷 标签：#网盘资源"))
      = some (str "https://pan.baidu.com/s/" ++ t,
          '\n' :: str "\n📁 大小：NG\n🏷 标签：#网盘资源") := by
    have h1 : isPre (str "链接") (str "链接："
        ++ ((str "https://pan.baidu.com/s/" ++ t)
          ++ str "\n\n📁 大小：NG\n🏷 标签：#网盘资源")) = true := by
      rw [show str "链接：" ++ ((str "https://pan.baidu.com/s/" ++ t)
          ++ str "\n\n📁 大小：NG\n🏷 标签：#网盘资源")
        = str "链接" ++ ('：' :: ((str "https://pan.baidu.com/s/" ++ t)
          ++ str "\n\n📁 大小：NG\n🏷 标签：#网盘资源")) from rfl]
      exact isPre_append_self _ _
    rw [tryLabeledURL, if_pos h1]
    show (match (str "链接：" ++ ((str "https://pan.baidu.com/s/" ++ t)
        ++ str "\n\n📁 大小：NG\n🏷 标签：#网盘资源")).drop 2 with
      | c :: r => if isColonFull c then matchAnyURL (r.dropWhile isWS) else none
      | [] => none)
      = some (str "https://pan.baidu.com/s/" ++ t,
          '\n' :: str "\n📁 大小：NG\n🏷 标签：#网盘资源")
    rw [show (str "链接：" ++ ((str "https://pan.baidu.com/s/" ++ t)
        ++ str "\n\n📁 大小：NG\n🏷 标签：#网盘资源")).drop 2
      = '：' :: ((str "https://pan.baidu.com/s/" ++ t)
        ++ str "\n\n📁 大小：NG\n🏷 标签：#网盘资源") from rfl]
    show (if isColonFull '：' then
        matchAnyURL (((str "https://pan.baidu.com/s/" ++ t)
          ++ str "\n\n📁 大小：NG\n🏷 标签：#网盘资源").dropWhile isWS)
      else none)
      = some (str "https://pan.baidu.com/s/" ++ t,
          '\n' :: str "\n📁 大小：NG\n🏷 标签：#网盘资源")
    rw [if_pos (by decide)]
    rw [show (str "https://pan.baidu.com/s/" ++ t)
        ++ str "\n\n📁 大小：NG\n🏷 标签：#网盘资源"
      = 'h' :: ((str "ttps://pan.baidu.com/s/" ++ t)
        ++ str "\n\n📁 大小：NG\n🏷 标签：#网盘资源") from rfl]
    rw [List.dropWhile_cons_of_neg (by decide)]
    rw [show ('h' :: ((str "ttps://pan.baidu.com/s/" ++ t)
        ++ str "\n\n📁 大小：NG\n🏷 标签：#网盘资源"))
      = (str "https://pan.baidu.com/s/" ++ t)
        ++ '\n' :: str "\n📁 大小：NG\n🏷 标签：#网盘资源" from rfl]
    exact matchAnyURL_clean (goodLink_anyLinkShape hgoodcap)
      (Or.inr ⟨'\n', str "\n📁 大小：NG\n🏷 标签：#网盘资源", rfl, by decide⟩)
  have hfl_fixed : findall (tryLabeledURL isColonFull)
      (str "名称：未提供\n\n描述：未提供\n\n" ++ (str "链接："
        ++ ((str "https://pan.baidu.com/s/" ++ t)
          ++ str "\n\n📁 大小：NG\n🏷 标签：#网盘资源")))
      = [str "https://pan.baidu.com/s/" ++ t] := by
    rw [findall_append_none ?hnone]
    case hnone =>
      intro k hk
      obtain ⟨c0, t0, hd, hc0⟩ := exists_head_drop hk
      rw [drop_append_lt hk, hd]
      refine tryLabeledURL_none_of_head ?_
      rw [List.cons_append, List.head?_cons]
      intro hcon
      simp only [Option.some.injEq] at hcon
      subst hcon
      revert hc0
      decide
    rw [findall_cons_some (tryLabeledURL_consumes isColonFull) hlab_hit]
    rw [findall_labeled_none (by decide : '链' ∉ '\n' :: str "\n📁 大小：NG\n🏷 标签：#网盘资源")]
  have hpa : provider_anchored (str "https://pan.baidu.com/s/" ++ t) = true := by
    rw [provider_anchored, List.any_eq_true]
    refine ⟨str "https://pan.baidu.com/", by decide, ?_⟩
    rw [show str "https://pan.baidu.com/s/" ++ t
      = str "https://pan.baidu.com/" ++ (str "s/" ++ t) from by
        rw [← List.append_assoc]
        rfl]
    exact isPre_append_self _ _
  have had2 : detect_ad_content
      (str "名称：未提供\n\n描述：未提供\n\n" ++ (str "链接："
        ++ ((str "https://pan.baidu.com/s/" ++ t)
          ++ str "\n\n📁 大小：NG\n🏷 标签：#网盘资源"))) = false := by
    rw [detect_ad_content, hsfD_fixed, hfl_fixed]
    show (ad_keywords.any (fun kw => hasSub kw (str "未提供"))
      || [str "https://pan.baidu.com/s/" ++ t].any (fun l =>
          !provider_anchored l
            && suspicious_patterns.any (fun pat => hasSub pat l))) = false
    rw [show ad_keywords.any (fun kw => hasSub kw (str "未提供")) = false from by decide]
    simp [hpa]
  -- the rebuilt caption passes validation
  have hsc2 : structCheck
      (str "名称：未提供\n\n描述：未提供\n\n" ++ (str "链接："
        ++ ((str "https://pan.baidu.com/s/" ++ t)
          ++ str "\n\n📁 大小：NG\n🏷 标签：#网盘资源"))) = true := by
    refine structCheck_pos _
      (str "未提供\n\n描述：未提供\n\n" ++ (str "链接："
        ++ ((str "https://pan.baidu.com/s/" ++ t)
          ++ str "\n\n📁 大小：NG\n🏷 标签：#网盘资源")))
      (str "未提供\n\n" ++ (str "链接："
        ++ ((str "https://pan.baidu.com/s/" ++ t)
          ++ str "\n\n📁 大小：NG\n🏷 标签：#网盘资源")))
      ?_ ?_ ?_
    · rw [show str "名称：未提供\n\n描述：未提供\n\n" ++ (str "链接："
          ++ ((str "https://pan.baidu.com/s/" ++ t)
            ++ str "\n\n📁 大小：NG\n🏷 标签：#网盘资源"))
        = str "名称：" ++ (str "未提供\n\n描述：未提供\n\n" ++ (str "链接："
          ++ ((str "https://pan.baidu.com/s/" ++ t)
            ++ str "\n\n📁 大小：NG\n🏷 标签：#网盘资源"))) from rfl]
      exact searchAfterSub_here
    · rw [show str "未提供\n\n描述：未提供\n\n" ++ (str "链接："
          ++ ((str "https://pan.baidu.com/s/" ++ t)
            ++ str "\n\n📁 大小：NG\n🏷 标签：#网盘资源"))
        = str "未提供" ++ (str "\n\n描述：" ++ (str "未提供\n\n" ++ (str "链接："
          ++ ((str "https://pan.baidu.com/s/" ++ t)
            ++ str "\n\n📁 大小：NG\n🏷 标签：#网盘资源")))) from rfl]
      rw [searchAfterSub_skip (show (str "\n\n描述：").head? = some '\n' from rfl)
        (by decide)]
      exact searchAfterSub_here
    · rw [show str "未提供\n\n" ++ (str "链接："
          ++ ((str "https://pan.baidu.com/s/" ++ t)
            ++ str "\n\n📁 大小：NG\n🏷 标签：#网盘资源"))
        = str "未提供" ++ ('\n' :: '\n' :: (str "链接："
          ++ ((str "https://pan.baidu.com/s/" ++ t)
            ++ '\n' :: str "\n📁 大小：NG\n🏷 标签：#网盘资源"))) from rfl]
      exact anySuffixB_of_suffix _ _ (blockTail_hit hgoodcap)
  -- the strict parse extracts no name, so the fallback path runs
  have hname : (strict_mode_parse (str "https://pan.baidu.com/s/" ++ t)).name = [] := by
    show (match searchField [str "名称", str "资源标题"] isColonBoth tailLine
        (str "https://pan.baidu.com/s/" ++ t) with
      | some s => pyStrip s
      | none => []) = []
    rw [hsnNR]
  refine ⟨hsc1, hlinks_eq, hafm, hsc2, ?_⟩
  simp only [handle_message]
  rw [if_pos (Or.inl hname)]
  rw [if_neg (by simp [had1])]
  rw [if_neg (by simp [hsc1])]
  rw [hafm]
  rw [if_neg (by rw [had2]; simp)]
  rw [if_pos hsc2]

/-- Claim C7, witness: the bare baidu URL of the specification's example,
with tail `y?pwd=z`. -/
theorem C7_autofix_accepts_witness :
    structCheck (str "https://pan.baidu.com/s/" ++ str "y?pwd=z") = false
    ∧ auto_fix_links (str "https://pan.baidu.com/s/" ++ str "y?pwd=z")
        = [str "https://pan.baidu.com/s/" ++ str "y?pwd=z"]
    ∧ auto_fix_message (str "https://pan.baidu.com/s/" ++ str "y?pwd=z")
        = str "名称：未提供\n\n描述：未提供\n\n" ++ (str "链接："
            ++ ((str "https://pan.baidu.com/s/" ++ str "y?pwd=z")
              ++ str "\n\n📁 大小：NG\n🏷 标签：#网盘资源"))
    ∧ structCheck (str "名称：未提供\n\n描述：未提供\n\n" ++ (str "链接："
            ++ ((str "https://pan.baidu.com/s/" ++ str "y?pwd=z")
              ++ str "\n\n📁 大小：NG\n🏷 标签：#网盘资源"))) = true
    ∧ handle_message true (some (str "https://pan.baidu.com/s/" ++ str "y?pwd=z"))
        = Decision.accepted (str "名称：未提供\n\n描述：未提供\n\n" ++ (str "链接："
            ++ ((str "https://pan.baidu.com/s/" ++ str "y?pwd=z")
              ++ str "\n\n📁 大小：NG\n🏷 标签：#网盘资源"))) :=
  C7_autofix_accepts (str "y?pwd=z") (by decide) (by decide) (by decide)

end NewContribute
